import Mathlib

/-!
# Connor-Stevens model neuron (RTXI plugin)

A shallow embedding of `connor-stevens.cpp`: the rate-function library, the
derivative evaluator `derivs`, the explicit Euler step `solve`, the tick
driver `execute` and the configuration transitions `update` /
`initParameters`.

Conventions of the embedding.

* A C++ `double` is a real number and arithmetic on it is exact, with one
  exception: `period` and `steps` are derived in binary64 arithmetic, every
  operation of `getPeriod() * 1e-9` and of `ceil(period * rate)` rounded to the
  nearest double by `fl`, because the integer `steps` depends on that rounding.
* `double y[6]` and `double dydt[6]` are functions `Fin 6 → ℝ`; the macros
  `V m h n a b` are the components `y 0 .. y 5`.
* `int steps` is an integer; the conversion `static_cast<int>` that produces
  it is modelled with the range of a 32-bit `int`.
* `long long count` starts at 0 and grows by one per tick, so it stays far
  from the 64-bit bound in every run; it is an unbounded integer here.
* The host's `input(0)` is the argument `Istim`, `output(0)` is the field
  `output0`, and `RT::System::getInstance()->getPeriod()` is the argument
  `hostPeriod` (nanoseconds).
* The parameter table of the GUI is the record `Display`; a displayed text is
  the exact number it stands for.
-/

namespace ConnorStevens

/-! ## Rate-function library -/

/-- Forward rate of sodium activation, `alpha_m` of the source. -/
noncomputable def alpha_m (V : ℝ) : ℝ :=
  let x := -(V + 29.7)
  let y := 10.0
  if |x / y| < 1e-6 then 0.38 * y * (1 - x / y / 2.0)
  else 0.38 * x / (Real.exp (x / y) - 1.0)

/-- Backward rate of sodium activation. -/
noncomputable def beta_m (V : ℝ) : ℝ :=
  15.2 * Real.exp (-0.0556 * (V + 54.7))

/-- Steady state of sodium activation. -/
noncomputable def m_inf (V : ℝ) : ℝ :=
  alpha_m V / (alpha_m V + beta_m V)

/-- Time constant of sodium activation, in seconds. -/
noncomputable def tau_m (V : ℝ) : ℝ :=
  1.0e-3 / (alpha_m V + beta_m V)

/-- Forward rate of sodium inactivation. -/
noncomputable def alpha_h (V : ℝ) : ℝ :=
  0.26 * Real.exp (-0.04 * (V + 48.0))

/-- Backward rate of sodium inactivation. -/
noncomputable def beta_h (V : ℝ) : ℝ :=
  3.8 / (1.0 + Real.exp (-0.1 * (V + 18)))

/-- Steady state of sodium inactivation. -/
noncomputable def h_inf (V : ℝ) : ℝ :=
  alpha_h V / (alpha_h V + beta_h V)

/-- Time constant of sodium inactivation, in seconds. -/
noncomputable def tau_h (V : ℝ) : ℝ :=
  1.0e-3 / (alpha_h V + beta_h V)

/-- Forward rate of potassium activation, `alpha_n` of the source. -/
noncomputable def alpha_n (V : ℝ) : ℝ :=
  let x := -(V + 45.7)
  let y := 10.0
  if |x / y| < 1e-6 then 0.02 * y * (1 - x / y / 2.0)
  else 0.02 * x / (Real.exp (x / y) - 1.0)

/-- Backward rate of potassium activation. -/
noncomputable def beta_n (V : ℝ) : ℝ :=
  0.25 * Real.exp (-0.0125 * (V + 55.7))

/-- Steady state of potassium activation. -/
noncomputable def n_inf (V : ℝ) : ℝ :=
  alpha_n V / (alpha_n V + beta_n V)

/-- Time constant of potassium activation, in seconds. -/
noncomputable def tau_n (V : ℝ) : ℝ :=
  1.0e-3 / (alpha_n V + beta_n V)

/-- Steady state of A-type activation: `pow(..., 1 / 3.0)`. -/
noncomputable def a_inf (V : ℝ) : ℝ :=
  (0.0761 * Real.exp (0.0314 * (V + 94.22)) / (1 + Real.exp (0.0346 * (V + 1.17)))) ^
    ((1 : ℝ) / 3.0)

/-- Time constant of A-type activation, in seconds. -/
noncomputable def tau_a (V : ℝ) : ℝ :=
  0.3632e-3 + 1.158e-3 / (1 + Real.exp (0.0497 * (V + 55.96)))

/-- Steady state of A-type inactivation: `pow(..., 4.0)`. -/
noncomputable def b_inf (V : ℝ) : ℝ :=
  (1 / (1 + Real.exp (0.0688 * (V + 53.3)))) ^ (4.0 : ℝ)

/-- Time constant of A-type inactivation, in seconds. -/
noncomputable def tau_b (V : ℝ) : ℝ :=
  1.24e-3 + 2.678e-3 / (1 + Real.exp (0.0624 * (V + 50.0)))

/-! ## Data model -/

/-- The arrays `double y[6]` and `double dydt[6]`. -/
abbrev Vec6 := Fin 6 → ℝ

/-- The twelve editable entries of the GUI parameter table, in display units. -/
structure Display where
  V0 : ℝ
  Cm : ℝ
  G_Na_max : ℝ
  E_Na : ℝ
  G_K_max : ℝ
  E_K : ℝ
  G_A_max : ℝ
  E_A : ℝ
  G_L : ℝ
  E_L : ℝ
  Iapp : ℝ
  rate : ℝ

/-- The data members of `class ConnorStevens`, with the host's output slot
`output0` and parameter table `gui`. -/
structure Model where
  y : Vec6
  period : ℝ
  steps : ℤ
  V0 : ℝ
  Cm : ℝ
  G_Na_max : ℝ
  E_Na : ℝ
  G_K_max : ℝ
  E_K : ℝ
  G_L : ℝ
  E_L : ℝ
  G_A_max : ℝ
  E_A : ℝ
  Iapp : ℝ
  IKA : ℝ
  rate : ℝ
  systime : ℝ
  count : ℤ
  output0 : ℝ
  gui : Display

/-- Least value of a 32-bit `int`. -/
def INT_MIN : ℤ := -2147483648

/-- Greatest value of a 32-bit `int`. -/
def INT_MAX : ℤ := 2147483647

/-- The C function `ceil`, whose result is again a `double`. -/
noncomputable def ceil (x : ℝ) : ℝ := (⌈x⌉ : ℤ)

/-- Rounding of a real to the nearest integer, ties to the even one. -/
noncomputable def roundEven (x : ℝ) : ℤ :=
  if x - ⌊x⌋ < 1 / 2 then ⌊x⌋
  else if 1 / 2 < x - ⌊x⌋ then ⌊x⌋ + 1
  else if Even ⌊x⌋ then ⌊x⌋ else ⌊x⌋ + 1

/-- Rounding of a real to the nearest IEEE-754 binary64 number, ties to even:
the result of one `double` operation whose exact value is `x`. A number with
`2 ^ e ≤ |x| < 2 ^ (e + 1)` is rounded on the grid of spacing `2 ^ (e - 52)`,
below the normal range on the subnormal grid `2 ^ (-1074)`. The overflow to
infinity beyond the largest double is not modelled. -/
noncomputable def fl (x : ℝ) : ℝ :=
  let e : ℤ := max (Int.log 2 |x|) (-1022)
  (roundEven (x / (2 : ℝ) ^ (e - 52)) : ℝ) * (2 : ℝ) ^ (e - 52)

/-- The conversion `static_cast<int>` of a `double`: truncation toward zero.
A value outside the range of `int` has no defined result in C++; the model
takes `INT_MIN`, the value the x86-64 conversion instruction delivers, so that
the result is an `int` in every case. -/
noncomputable def static_cast_int (x : ℝ) : ℤ :=
  let t : ℤ := if 0 ≤ x then ⌊x⌋ else ⌈x⌉
  if INT_MIN ≤ t ∧ t ≤ INT_MAX then t else INT_MIN

/-- The state vector at rest for the initial voltage `V0`: the six assignments
`V = V0; m = m_inf(V0); ... b = b_inf(V0);`, applied to `y` in source order. -/
noncomputable def resetState (V0 : ℝ) (y : Vec6) : Vec6 :=
  let y0 := Function.update y 0 V0
  let y1 := Function.update y0 1 (m_inf V0)
  let y2 := Function.update y1 2 (h_inf V0)
  let y3 := Function.update y2 3 (n_inf V0)
  let y4 := Function.update y3 4 (a_inf V0)
  Function.update y4 5 (b_inf V0)

/-! ## Derivative evaluator and integrator -/

/-- The source's `derivs(y, dydt)` on the member array `y`: the derivative vector
it writes to `dydt`, and the model with `IKA` reassigned. The macros `G_Na`,
`G_K`, `G_A` are expanded in place. -/
noncomputable def derivs (Istim : ℝ) (s : Model) : Vec6 × Model :=
  let y := s.y
  let dV := (s.Iapp - Istim * 1e6 - (s.G_Na_max * y 1 * y 1 * y 1 * y 2) * (y 0 - s.E_Na)
      - (s.G_K_max * y 3 * y 3 * y 3 * y 3) * (y 0 - s.E_K) - s.G_L * (y 0 - s.E_L)
      - (s.G_A_max * y 4 * y 4 * y 4 * y 5) * (y 0 - s.E_A)) * 1000 / s.Cm
  let dm := (m_inf (y 0) - y 1) / tau_m (y 0)
  let dh := (h_inf (y 0) - y 2) / tau_h (y 0)
  let dn := (n_inf (y 0) - y 3) / tau_n (y 0)
  let da := (a_inf (y 0) - y 4) / tau_a (y 0)
  let db := (b_inf (y 0) - y 5) / tau_b (y 0)
  (![dV, dm, dh, dn, da, db],
    { s with IKA := (s.G_A_max * y 4 * y 4 * y 4 * y 5) * (y 0 - s.E_A) * 1e-6 })

/-- The loop `for (size_t i = 0; i < 6; ++i) y[i] += dt * dydt[i];`. -/
def eulerLoop (dt : ℝ) (dydt : Vec6) (y : Vec6) : Vec6 :=
  ([0, 1, 2, 3, 4, 5] : List (Fin 6)).foldl
    (fun acc i => Function.update acc i (acc i + dt * dydt i)) y

/-- The source's `solve(dt, y)`; its only caller passes the member array `y`. -/
noncomputable def solve (Istim : ℝ) (dt : ℝ) (s : Model) : Model :=
  let r := derivs Istim s
  { r.2 with y := eulerLoop dt r.1 r.2.y }

/-! ## Tick driver and configuration -/

/-- The source's `execute`: the loop `for (int i = 0; i < steps; ++i)` runs
`steps` times, and not at all when `steps` is not positive. -/
noncomputable def execute (Istim : ℝ) (s : Model) : Model :=
  let s1 := { s with systime := (s.count : ℝ) * s.period }
  let s2 := (fun t : Model => solve Istim (t.period / (t.steps : ℝ)) t)^[s1.steps.toNat] s1
  let s3 := { s2 with output0 := s2.y 0 * 1e-3 }
  { s3 with count := s3.count + 1 }

/-- The flags of `DefaultGUIModel::update_flags_t`, declared by the host. -/
inductive update_flags_t where
  | INIT
  | MODIFY
  | PERIOD
  | PAUSE
  | UNPAUSE
  | EXIT
  deriving DecidableEq

/-- The source's `update(flag)`. `setState` only registers the address of a
member for display and changes nothing. In `getPeriod() * 1e-9` the `long long`
is converted to a double, `1e-9` is the double nearest to that decimal, and the
product is rounded; so is the product `period * rate`. -/
noncomputable def update (flag : update_flags_t) (hostPeriod : ℤ) (s : Model) : Model :=
  match flag with
  | .INIT =>
    { s with gui :=
      { V0 := s.V0
        Cm := s.Cm * 100
        G_Na_max := s.G_Na_max * 100
        E_Na := s.E_Na
        G_K_max := s.G_K_max * 100
        E_K := s.E_K
        G_A_max := s.G_A_max * 100
        E_A := s.E_A
        G_L := s.G_L * 100
        E_L := s.E_L
        Iapp := s.Iapp * 100
        rate := s.rate } }
  | .MODIFY =>
    let g := s.gui
    { s with
      V0 := g.V0
      Cm := g.Cm / 100
      G_Na_max := g.G_Na_max / 100
      E_Na := g.E_Na
      G_K_max := g.G_K_max / 100
      E_K := g.E_K
      G_A_max := g.G_A_max / 100
      E_A := g.E_A
      G_L := g.G_L / 100
      E_L := g.E_L
      Iapp := g.Iapp / 100
      rate := g.rate
      steps := static_cast_int (ceil (fl (s.period * g.rate)))
      y := resetState g.V0 s.y }
  | .PERIOD =>
    let p : ℝ := fl (fl (hostPeriod : ℝ) * fl 1e-9)
    { s with
      period := p
      steps := static_cast_int (ceil (fl (p * s.rate))) }
  | _ => s

/-- The source's `initParameters`; members it does not assign keep their value.
`period` and `steps` are computed as in `update(PERIOD)`. -/
noncomputable def initParameters (hostPeriod : ℤ) (s : Model) : Model :=
  let p : ℝ := fl (fl (hostPeriod : ℝ) * fl 1e-9)
  { s with
    V0 := -65
    Cm := 1e-2
    G_Na_max := 1.2
    G_K_max := 0.2
    G_L := 0.003
    G_A_max := 0.477
    E_Na := 55.0
    E_K := -72.0
    E_L := -70.0
    E_A := -75.0
    Iapp := 0.2404
    rate := 40000
    y := resetState (-65) s.y
    count := 0
    systime := 0
    period := p
    steps := static_cast_int (ceil (fl (p * 40000))) }

/-- The constructor: `initParameters(); update(INIT);` on the fresh object `s`. -/
noncomputable def construct (hostPeriod : ℤ) (s : Model) : Model :=
  update .INIT hostPeriod (initParameters hostPeriod s)

/-- Two models have the same parameter set, the same `period` and the same
`steps`. -/
def SameConfig (s t : Model) : Prop :=
  t.period = s.period ∧ t.steps = s.steps ∧ t.V0 = s.V0 ∧ t.Cm = s.Cm
    ∧ t.G_Na_max = s.G_Na_max ∧ t.E_Na = s.E_Na ∧ t.G_K_max = s.G_K_max ∧ t.E_K = s.E_K
    ∧ t.G_L = s.G_L ∧ t.E_L = s.E_L ∧ t.G_A_max = s.G_A_max ∧ t.E_A = s.E_A
    ∧ t.Iapp = s.Iapp ∧ t.rate = s.rate

/-- The invariant tying `steps` to `period` and `rate`: `steps` is the ceiling of
the double product `period * rate`. -/
def StepsInv (s : Model) : Prop :=
  s.steps = ⌈fl (s.period * s.rate)⌉

/-- The integer `z` is a value of the 32-bit type `int`. -/
def InIntRange (z : ℤ) : Prop :=
  INT_MIN ≤ z ∧ z ≤ INT_MAX

/-- A parameter table with every entry zero. -/
noncomputable def blankDisplay : Display :=
  { V0 := 0, Cm := 0, G_Na_max := 0, E_Na := 0, G_K_max := 0, E_K := 0, G_A_max := 0,
    E_A := 0, G_L := 0, E_L := 0, Iapp := 0, rate := 0 }

/-- An object before its constructor has run, every member zero. -/
noncomputable def blank : Model :=
  { y := fun _ => 0, period := 0, steps := 0, V0 := 0, Cm := 0, G_Na_max := 0, E_Na := 0,
    G_K_max := 0, E_K := 0, G_L := 0, E_L := 0, G_A_max := 0, E_A := 0, Iapp := 0, IKA := 0,
    rate := 0, systime := 0, count := 0, output0 := 0, gui := blankDisplay }

/-- The model right after construction under a host period of 1 ms. -/
noncomputable def fresh : Model :=
  construct 1000000 blank

/-- The constructed model moved to the state `(V, m, h, n, a, b) = (-65, 0, 1, 0, 0, 1)`. -/
noncomputable def probe : Model :=
  { fresh with y := ![-65, 0, 1, 0, 0, 1] }

/-- The user's edit of the `Rate (Hz)` entry of the parameter table. -/
def editRate (r : ℝ) (s : Model) : Model :=
  { s with gui := { s.gui with rate := r } }

/-- The user's replacement of the whole parameter table. -/
def editDisplay (g : Display) (s : Model) : Model :=
  { s with gui := g }

/-- The models reachable from construction by ticks, host notifications and
edits of the parameter table. The second index records the value `period` had
during the latest tick, `none` as long as no tick has run. -/
inductive Reach : Model → Option ℝ → Prop where
  | construct (hostPeriod : ℤ) (s0 : Model) : Reach (construct hostPeriod s0) none
  | execute (Istim : ℝ) {s : Model} {lp : Option ℝ} :
      Reach s lp → Reach (execute Istim s) (some s.period)
  | update (flag : update_flags_t) (hostPeriod : ℤ) {s : Model} {lp : Option ℝ} :
      Reach s lp → Reach (update flag hostPeriod s) lp
  | edit (g : Display) {s : Model} {lp : Option ℝ} :
      Reach s lp → Reach (editDisplay g s) lp

/-- Two model instances agree on the state vector, the parameter set, `period`
and `steps`; nothing is said about `count`, `systime`, `IKA`, the output slot
or the parameter table. -/
def Agree (s t : Model) : Prop :=
  t.y = s.y ∧ SameConfig s t

/-- The host's run of ticks: `execute` once per stimulus sample, in order. -/
noncomputable def ticks (stims : List ℝ) (s : Model) : Model :=
  stims.foldl (fun acc Istim => execute Istim acc) s

/-- The constructed model with other values of `count`, `systime` and `IKA`. -/
noncomputable def freshLater : Model :=
  { fresh with count := 5, systime := 3, IKA := 7 }

/-- The constructed model moved to the singular voltage of `alpha_m`, every
gate half open. -/
noncomputable def halfOpen : Model :=
  { fresh with y := ![-29.7, 0.5, 0.5, 0.5, 0.5, 0.5] }

/-- The constructed model moved to the singular voltage of `alpha_m`, with the
sodium activation gate closed: `(V, m, h, n, a, b) = (-29.7, 0, 1, 0, 0, 1)`. -/
noncomputable def closedGate : Model :=
  { fresh with y := ![-29.7, 0, 1, 0, 0, 1] }

/-- The sub-steps of one tick cover one period exactly: `steps` is at least 1,
the sub-step size `period / steps` of `execute` is at most `1 / rate`, and
`steps` sub-steps add up to `period`. -/
def CoversPeriod (s : Model) : Prop :=
  1 ≤ s.steps ∧ s.period / (s.steps : ℝ) ≤ 1 / s.rate
    ∧ (s.steps : ℝ) * (s.period / (s.steps : ℝ)) = s.period

/-- The sub-steps of one tick cover one period up to rounding: `steps` is at
least 1, at least the double product `period * rate`, and at least the exact
product `period * rate` less the relative rounding error `2 ^ (-53)`. -/
def StepsCover (s : Model) : Prop :=
  1 ≤ s.steps ∧ fl (s.period * s.rate) ≤ (s.steps : ℝ)
    ∧ s.period * s.rate * (1 - (2 : ℝ) ^ (-53 : ℤ)) ≤ (s.steps : ℝ)

/-! ## The derivative evaluator -/

/-- C1: for every state vector, every parameter set with `Cm ≠ 0` and every
stimulus sample, `derivs` returns the current-balance expression for `dV`, the
relaxation `(X_inf V - X) / tau_X V` for each gate, assigns
`IKA = G_A_max * a^3 * b * (V - E_A) * 1e-6`, and leaves the state vector (and
every member other than `IKA`) as it was. -/
theorem derivs_spec (Istim : ℝ) (s : Model) (hCm : s.Cm ≠ 0) :
    (derivs Istim s).1 0 =
        (s.Iapp - Istim * 1e6 - s.G_Na_max * s.y 1 ^ 3 * s.y 2 * (s.y 0 - s.E_Na)
          - s.G_K_max * s.y 3 ^ 4 * (s.y 0 - s.E_K) - s.G_L * (s.y 0 - s.E_L)
          - s.G_A_max * s.y 4 ^ 3 * s.y 5 * (s.y 0 - s.E_A)) * 1000 / s.Cm
      ∧ (derivs Istim s).1 1 = (m_inf (s.y 0) - s.y 1) / tau_m (s.y 0)
      ∧ (derivs Istim s).1 2 = (h_inf (s.y 0) - s.y 2) / tau_h (s.y 0)
      ∧ (derivs Istim s).1 3 = (n_inf (s.y 0) - s.y 3) / tau_n (s.y 0)
      ∧ (derivs Istim s).1 4 = (a_inf (s.y 0) - s.y 4) / tau_a (s.y 0)
      ∧ (derivs Istim s).1 5 = (b_inf (s.y 0) - s.y 5) / tau_b (s.y 0)
      ∧ (derivs Istim s).2.IKA = s.G_A_max * s.y 4 ^ 3 * s.y 5 * (s.y 0 - s.E_A) * 1e-6
      ∧ (derivs Istim s).2.y = s.y
      ∧ (derivs Istim s).2 = { s with IKA := (derivs Istim s).2.IKA } := by
  have _ := hCm
  refine ⟨?_, rfl, rfl, rfl, rfl, rfl, ?_, rfl, rfl⟩
  · show (s.Iapp - Istim * 1e6 - (s.G_Na_max * s.y 1 * s.y 1 * s.y 1 * s.y 2) * (s.y 0 - s.E_Na)
      - (s.G_K_max * s.y 3 * s.y 3 * s.y 3 * s.y 3) * (s.y 0 - s.E_K) - s.G_L * (s.y 0 - s.E_L)
      - (s.G_A_max * s.y 4 * s.y 4 * s.y 4 * s.y 5) * (s.y 0 - s.E_A)) * 1000 / s.Cm = _
    ring
  · show (s.G_A_max * s.y 4 * s.y 4 * s.y 4 * s.y 5) * (s.y 0 - s.E_A) * 1e-6 = _
    ring

/-- C1 at the model `probe` with no stimulus: `Cm = 0.01`, only the bias and
the leak contribute to `dV`, and `IKA` is zero. -/
theorem derivs_spec_witness :
    probe.Cm ≠ 0 ∧ (derivs 0 probe).1 0 = 22540 ∧ (derivs 0 probe).2.IKA = 0
      ∧ (derivs 0 probe).2.y = probe.y := by
  have hCm : probe.Cm ≠ 0 := by
    show (1e-2 : ℝ) ≠ 0
    norm_num
  obtain ⟨h0, -, -, -, -, -, hI, hy, -⟩ := derivs_spec 0 probe hCm
  refine ⟨hCm, ?_, ?_, hy⟩
  · rw [h0]
    norm_num [probe, fresh, construct, update, initParameters]
  · rw [hI]
    norm_num [probe, fresh, construct, update, initParameters]

/-! ## Bounds on the steady-state curves -/

/-- The quotient `c * x / (exp (x / 10) - 1)` is positive away from `x = 0`. -/
lemma closed_form_pos (c x : ℝ) (hc : 0 < c) (hx : x ≠ 0) :
    0 < c * x / (Real.exp (x / 10) - 1) := by
  rcases lt_or_gt_of_ne hx with h | h
  · have hneg : Real.exp (x / 10) - 1 < 0 := by
      have : Real.exp (x / 10) < 1 := Real.exp_lt_one_iff.mpr (by linarith)
      linarith
    exact div_pos_of_neg_of_neg (mul_neg_of_pos_of_neg hc h) hneg
  · have hpos : 0 < Real.exp (x / 10) - 1 := by
      have : 1 < Real.exp (x / 10) := Real.one_lt_exp_iff.mpr (by linarith)
      linarith
    exact div_pos (mul_pos hc h) hpos

/-- Outside the window `|x / 10| < 1e-6` the argument `x` is not zero. -/
lemma ne_zero_of_not_small (x : ℝ) (h : ¬ |x / 10| < 1e-6) : x ≠ 0 := by
  rintro rfl
  apply h
  norm_num

lemma alpha_m_pos (V : ℝ) : 0 < alpha_m V := by
  unfold alpha_m
  by_cases h : |(-(V + 29.7)) / 10.0| < 1e-6
  · simp only [if_pos h]
    have h2 := (abs_lt.mp h).2
    nlinarith
  · simp only [if_neg h]
    have h10 : (10.0 : ℝ) = 10 := by norm_num
    have h1 : (1.0 : ℝ) = 1 := by norm_num
    rw [h10] at h ⊢
    rw [h1]
    exact closed_form_pos 0.38 _ (by norm_num) (ne_zero_of_not_small _ h)

lemma alpha_n_pos (V : ℝ) : 0 < alpha_n V := by
  unfold alpha_n
  by_cases h : |(-(V + 45.7)) / 10.0| < 1e-6
  · simp only [if_pos h]
    have h2 := (abs_lt.mp h).2
    nlinarith
  · simp only [if_neg h]
    have h10 : (10.0 : ℝ) = 10 := by norm_num
    have h1 : (1.0 : ℝ) = 1 := by norm_num
    rw [h10] at h ⊢
    rw [h1]
    exact closed_form_pos 0.02 _ (by norm_num) (ne_zero_of_not_small _ h)

lemma beta_m_pos (V : ℝ) : 0 < beta_m V := by
  unfold beta_m
  have := Real.exp_pos (-0.0556 * (V + 54.7))
  positivity

lemma alpha_h_pos (V : ℝ) : 0 < alpha_h V := by
  unfold alpha_h
  have := Real.exp_pos (-0.04 * (V + 48.0))
  positivity

lemma beta_h_pos (V : ℝ) : 0 < beta_h V := by
  unfold beta_h
  have := Real.exp_pos (-0.1 * (V + 18))
  positivity

lemma beta_n_pos (V : ℝ) : 0 < beta_n V := by
  unfold beta_n
  have := Real.exp_pos (-0.0125 * (V + 55.7))
  positivity

/-- A fraction `a / (a + b)` of positive rates lies strictly between 0 and 1. -/
lemma ratio_mem (a b : ℝ) (ha : 0 < a) (hb : 0 < b) :
    0 < a / (a + b) ∧ a / (a + b) < 1 := by
  have hab : 0 < a + b := by linarith
  refine ⟨div_pos ha hab, ?_⟩
  rw [div_lt_one hab]
  linarith

lemma m_inf_mem (V : ℝ) : 0 < m_inf V ∧ m_inf V < 1 :=
  ratio_mem _ _ (alpha_m_pos V) (beta_m_pos V)

lemma h_inf_mem (V : ℝ) : 0 < h_inf V ∧ h_inf V < 1 :=
  ratio_mem _ _ (alpha_h_pos V) (beta_h_pos V)

lemma n_inf_mem (V : ℝ) : 0 < n_inf V ∧ n_inf V < 1 :=
  ratio_mem _ _ (alpha_n_pos V) (beta_n_pos V)

lemma b_inf_mem (V : ℝ) : 0 ≤ b_inf V ∧ b_inf V ≤ 1 := by
  unfold b_inf
  have he := Real.exp_pos (0.0688 * (V + 53.3))
  have h0 : 0 ≤ 1 / (1 + Real.exp (0.0688 * (V + 53.3))) := by positivity
  have h1 : 1 / (1 + Real.exp (0.0688 * (V + 53.3))) ≤ 1 := by
    rw [div_le_one (by linarith)]
    linarith
  exact ⟨Real.rpow_nonneg h0 _, Real.rpow_le_one h0 h1 (by norm_num)⟩

/-- C2: for every voltage `V`, each of `m_inf V`, `h_inf V`, `n_inf V` and
`b_inf V` lies in `[0, 1]`; along the way `alpha_m V` and `alpha_n V` are
non-negative in the Taylor branch and in the closed-form branch alike. -/
theorem steady_states_in_unit_interval (V : ℝ) :
    (0 ≤ m_inf V ∧ m_inf V ≤ 1) ∧ (0 ≤ h_inf V ∧ h_inf V ≤ 1)
      ∧ (0 ≤ n_inf V ∧ n_inf V ≤ 1) ∧ (0 ≤ b_inf V ∧ b_inf V ≤ 1)
      ∧ 0 ≤ alpha_m V ∧ 0 ≤ alpha_n V :=
  ⟨⟨(m_inf_mem V).1.le, (m_inf_mem V).2.le⟩, ⟨(h_inf_mem V).1.le, (h_inf_mem V).2.le⟩,
    ⟨(n_inf_mem V).1.le, (n_inf_mem V).2.le⟩, b_inf_mem V, (alpha_m_pos V).le,
    (alpha_n_pos V).le⟩

/-! ## The steady state of A-type activation -/

/-- The `k`-th power of the Taylor polynomial of `exp` at `x / k` is a lower
bound of `exp x`. -/
lemma exp_ge_taylor_pow (x : ℝ) (k n : ℕ) (hk : 0 < k) (hx : 0 ≤ x) :
    (∑ m ∈ Finset.range n, (x / k) ^ m / (m.factorial : ℝ)) ^ k ≤ Real.exp x := by
  have hxk : 0 ≤ x / k := div_nonneg hx (Nat.cast_nonneg k)
  have h1 := Real.sum_le_exp_of_nonneg hxk n
  have h0 : 0 ≤ ∑ m ∈ Finset.range n, (x / k) ^ m / (m.factorial : ℝ) :=
    Finset.sum_nonneg (fun m _ => div_nonneg (pow_nonneg hxk m) (Nat.cast_nonneg _))
  have hk' : (k : ℝ) ≠ 0 := by exact_mod_cast hk.ne'
  have h2 : Real.exp x = Real.exp (x / k) ^ k := by
    rw [← Real.exp_nat_mul]
    congr 1
    field_simp
  rw [h2]
  exact pow_le_pow_left₀ h0 h1 k

/-- The `k`-th power of the Taylor polynomial of `exp` at `x / k` plus its
remainder bound is an upper bound of `exp x`, for `0 ≤ x ≤ k`. -/
lemma exp_le_taylor_pow (x : ℝ) (k n : ℕ) (hk : 0 < k) (hn : 0 < n) (hx : 0 ≤ x)
    (hxk : x ≤ k) :
    Real.exp x ≤ (∑ m ∈ Finset.range n, (x / k) ^ m / (m.factorial : ℝ)
      + (x / k) ^ n * (n + 1) / (n.factorial * n)) ^ k := by
  have hk' : (k : ℝ) ≠ 0 := by exact_mod_cast hk.ne'
  have hk0 : (0 : ℝ) < k := by exact_mod_cast hk
  have hy0 : 0 ≤ x / k := div_nonneg hx (Nat.cast_nonneg k)
  have hy1 : x / k ≤ 1 := by rw [div_le_one hk0]; exact hxk
  have h1 := Real.exp_bound' hy0 hy1 hn
  have h2 : Real.exp x = Real.exp (x / k) ^ k := by
    rw [← Real.exp_nat_mul]
    congr 1
    field_simp
  rw [h2]
  exact pow_le_pow_left₀ (Real.exp_pos _).le h1 k

lemma exp_4214508_le : Real.exp 4.214508 ≤ 67.6609 := by
  have h := exp_le_taylor_pow 4.214508 8 8 (by norm_num) (by norm_num) (by norm_num) (by norm_num)
  refine le_trans h ?_
  simp only [Finset.sum_range_succ, Finset.sum_range_zero, Nat.factorial]
  norm_num

lemma exp_2790026_le : Real.exp 2.790026 ≤ 16.28145 := by
  have h := exp_le_taylor_pow 2.790026 8 8 (by norm_num) (by norm_num) (by norm_num) (by norm_num)
  refine le_trans h ?_
  simp only [Finset.sum_range_succ, Finset.sum_range_zero, Nat.factorial]
  norm_num

lemma exp_2790026_ge : 16.2814 ≤ Real.exp 2.790026 := by
  have h := exp_ge_taylor_pow 2.790026 8 8 (by norm_num) (by norm_num)
  refine le_trans ?_ h
  simp only [Finset.sum_range_succ, Finset.sum_range_zero, Nat.factorial]
  norm_num

lemma exp_4968108_le : Real.exp 4.968108 ≤ 143.7547 := by
  have h := exp_le_taylor_pow 4.968108 8 8 (by norm_num) (by norm_num) (by norm_num) (by norm_num)
  refine le_trans h ?_
  simp only [Finset.sum_range_succ, Finset.sum_range_zero, Nat.factorial]
  norm_num

lemma exp_4968108_ge : 143.7542 ≤ Real.exp 4.968108 := by
  have h := exp_ge_taylor_pow 4.968108 8 8 (by norm_num) (by norm_num)
  refine le_trans ?_ h
  simp only [Finset.sum_range_succ, Finset.sum_range_zero, Nat.factorial]
  norm_num

lemma exp_2713226_le : Real.exp 2.713226 ≤ 15.07784 := by
  have h := exp_le_taylor_pow 2.713226 8 8 (by norm_num) (by norm_num) (by norm_num) (by norm_num)
  refine le_trans h ?_
  simp only [Finset.sum_range_succ, Finset.sum_range_zero, Nat.factorial]
  norm_num

lemma exp_2713226_ge : 15.0778 ≤ Real.exp 2.713226 := by
  have h := exp_ge_taylor_pow 2.713226 8 8 (by norm_num) (by norm_num)
  refine le_trans ?_ h
  simp only [Finset.sum_range_succ, Finset.sum_range_zero, Nat.factorial]
  norm_num

lemma exp_5030908_le : Real.exp 5.030908 ≤ 153.072 := by
  have h := exp_le_taylor_pow 5.030908 8 8 (by norm_num) (by norm_num) (by norm_num) (by norm_num)
  refine le_trans h ?_
  simp only [Finset.sum_range_succ, Finset.sum_range_zero, Nat.factorial]
  norm_num

lemma exp_5030908_ge : 153.0715 ≤ Real.exp 5.030908 := by
  have h := exp_ge_taylor_pow 5.030908 8 8 (by norm_num) (by norm_num)
  refine le_trans ?_ h
  simp only [Finset.sum_range_succ, Finset.sum_range_zero, Nat.factorial]
  norm_num

lemma exp_2706826_le : Real.exp 2.706826 ≤ 14.98165 := by
  have h := exp_le_taylor_pow 2.706826 8 8 (by norm_num) (by norm_num) (by norm_num) (by norm_num)
  refine le_trans h ?_
  simp only [Finset.sum_range_succ, Finset.sum_range_zero, Nat.factorial]
  norm_num

lemma exp_5156508_ge : 173.556 ≤ Real.exp 5.156508 := by
  have h := exp_ge_taylor_pow 5.156508 8 8 (by norm_num) (by norm_num)
  refine le_trans ?_ h
  simp only [Finset.sum_range_succ, Finset.sum_range_zero, Nat.factorial]
  norm_num

lemma exp_2462482_le : Real.exp 2.462482 ≤ 11.7339 := by
  have h := exp_le_taylor_pow 2.462482 8 8 (by norm_num) (by norm_num) (by norm_num) (by norm_num)
  refine le_trans h ?_
  simp only [Finset.sum_range_succ, Finset.sum_range_zero, Nat.factorial]
  norm_num

/-- A lower bound `1 / U ≤ exp (-x)` from an upper bound `exp x ≤ U`. -/
lemma exp_neg_ge (x U : ℝ) (h : Real.exp x ≤ U) : 1 / U ≤ Real.exp (-x) := by
  rw [Real.exp_neg, ← one_div]
  exact one_div_le_one_div_of_le (Real.exp_pos x) h

/-- An upper bound `exp (-x) ≤ 1 / L` from a lower bound `0 < L ≤ exp x`. -/
lemma exp_neg_le (x L : ℝ) (hL : 0 < L) (h : L ≤ Real.exp x) : Real.exp (-x) ≤ 1 / L := by
  rw [Real.exp_neg, ← one_div]
  exact one_div_le_one_div_of_le hL h

/-- The two decaying factors of `a_inf V ^ 3`: the reciprocal of the numerator's
exponential, and the quotient of the two exponentials. -/
lemma a_inf_le_of_bound (V M : ℝ) (hM : 0 ≤ M)
    (h : 0.0761 ≤ M ^ 3 * (Real.exp (-(0.0314 * (V + 94.22)))
      + Real.exp (0.0346 * (V + 1.17) - 0.0314 * (V + 94.22)))) :
    a_inf V ≤ M := by
  have hE1 := Real.exp_pos (0.0314 * (V + 94.22))
  have hE2 := Real.exp_pos (0.0346 * (V + 1.17))
  rw [Real.exp_neg, Real.exp_sub] at h
  have hden : 0 < 1 + Real.exp (0.0346 * (V + 1.17)) := by linarith
  have hf : 0.0761 * Real.exp (0.0314 * (V + 94.22)) / (1 + Real.exp (0.0346 * (V + 1.17)))
      ≤ M ^ 3 := by
    rw [div_le_iff₀ hden]
    have h' := mul_le_mul_of_nonneg_right h hE1.le
    have e : M ^ 3 * ((Real.exp (0.0314 * (V + 94.22)))⁻¹
        + Real.exp (0.0346 * (V + 1.17)) / Real.exp (0.0314 * (V + 94.22)))
        * Real.exp (0.0314 * (V + 94.22)) = M ^ 3 * (1 + Real.exp (0.0346 * (V + 1.17))) := by
      field_simp
    rw [e] at h'
    exact h'
  have hf0 : 0 ≤ 0.0761 * Real.exp (0.0314 * (V + 94.22))
      / (1 + Real.exp (0.0346 * (V + 1.17))) := by positivity
  have h3 : ((1 : ℝ) / 3.0) = ((3 : ℕ) : ℝ)⁻¹ := by norm_num
  unfold a_inf
  calc (0.0761 * Real.exp (0.0314 * (V + 94.22)) / (1 + Real.exp (0.0346 * (V + 1.17))))
        ^ ((1 : ℝ) / 3.0)
      ≤ (M ^ 3) ^ ((1 : ℝ) / 3.0) := Real.rpow_le_rpow hf0 hf (by norm_num)
    _ = M := by rw [h3]; exact Real.pow_rpow_inv_natCast hM (by norm_num)

/-- Tangent-line bound for the first decaying factor. -/
lemma tangent_A (V V0 : ℝ) :
    Real.exp (-(0.0314 * (V0 + 94.22))) * (1 - 0.0314 * (V - V0))
      ≤ Real.exp (-(0.0314 * (V + 94.22))) := by
  have e : -(0.0314 * (V + 94.22)) = -(0.0314 * (V0 + 94.22)) + -(0.0314 * (V - V0)) := by ring
  rw [e, Real.exp_add]
  have h := Real.add_one_le_exp (-(0.0314 * (V - V0)))
  have hp := Real.exp_pos (-(0.0314 * (V0 + 94.22)))
  apply mul_le_mul_of_nonneg_left _ hp.le
  linarith

/-- Tangent-line bound for the second factor. -/
lemma tangent_B (V V0 : ℝ) :
    Real.exp (0.0346 * (V0 + 1.17) - 0.0314 * (V0 + 94.22)) * (1 + 0.0032 * (V - V0))
      ≤ Real.exp (0.0346 * (V + 1.17) - 0.0314 * (V + 94.22)) := by
  have e : 0.0346 * (V + 1.17) - 0.0314 * (V + 94.22)
      = (0.0346 * (V0 + 1.17) - 0.0314 * (V0 + 94.22)) + 0.0032 * (V - V0) := by ring
  rw [e, Real.exp_add]
  have h := Real.add_one_le_exp (0.0032 * (V - V0))
  have hp := Real.exp_pos (0.0346 * (V0 + 1.17) - 0.0314 * (V0 + 94.22))
  apply mul_le_mul_of_nonneg_left _ hp.le
  linarith

/-- Below 40 mV the sum of the two factors stays above `0.0761`. -/
lemma factors_ge_below_40 (V : ℝ) (hV : V ≤ 40) :
    0.0761 ≤ (1 : ℝ) ^ 3 * (Real.exp (-(0.0314 * (V + 94.22)))
      + Real.exp (0.0346 * (V + 1.17) - 0.0314 * (V + 94.22))) := by
  have hA := tangent_A V 40
  have hB := tangent_B V 40
  have eA : -(0.0314 * ((40 : ℝ) + 94.22)) = -4.214508 := by norm_num
  have eB : 0.0346 * ((40 : ℝ) + 1.17) - 0.0314 * (40 + 94.22) = -2.790026 := by norm_num
  rw [eA] at hA
  rw [eB] at hB
  have a_lo := exp_neg_ge 4.214508 67.6609 exp_4214508_le
  have b_lo := exp_neg_ge 2.790026 16.28145 exp_2790026_le
  have b_hi := exp_neg_le 2.790026 16.2814 (by norm_num) exp_2790026_ge
  generalize Real.exp (-4.214508) = a at hA a_lo
  generalize Real.exp (-2.790026) = b at hB b_lo b_hi
  generalize Real.exp (-(0.0314 * (V + 94.22))) = A at hA ⊢
  generalize Real.exp (0.0346 * (V + 1.17) - 0.0314 * (V + 94.22)) = B at hB ⊢
  have hd : 0 ≤ 40 - V := by linarith
  have hs : 0 ≤ 0.0314 * a - 0.0032 * b := by
    norm_num at a_lo b_hi ⊢
    linarith
  have hprod := mul_nonneg hd hs
  norm_num at a_lo b_lo ⊢
  nlinarith

/-- For every voltage the sum of the two factors, scaled by `1.013 ^ 3`, stays
above `0.0761`. -/
lemma factors_ge_everywhere (V : ℝ) :
    0.0761 ≤ (1.013 : ℝ) ^ 3 * (Real.exp (-(0.0314 * (V + 94.22)))
      + Real.exp (0.0346 * (V + 1.17) - 0.0314 * (V + 94.22))) := by
  rcases le_total V 66 with hV | hV
  · have hA := tangent_A V 64
    have hB := tangent_B V 64
    have eA : -(0.0314 * ((64 : ℝ) + 94.22)) = -4.968108 := by norm_num
    have eB : 0.0346 * ((64 : ℝ) + 1.17) - 0.0314 * (64 + 94.22) = -2.713226 := by norm_num
    rw [eA] at hA
    rw [eB] at hB
    have a_lo := exp_neg_ge 4.968108 143.7547 exp_4968108_le
    have a_hi := exp_neg_le 4.968108 143.7542 (by norm_num) exp_4968108_ge
    have b_lo := exp_neg_ge 2.713226 15.07784 exp_2713226_le
    have b_hi := exp_neg_le 2.713226 15.0778 (by norm_num) exp_2713226_ge
    generalize Real.exp (-4.968108) = a at hA a_lo a_hi
    generalize Real.exp (-2.713226) = b at hB b_lo b_hi
    generalize Real.exp (-(0.0314 * (V + 94.22))) = A at hA ⊢
    generalize Real.exp (0.0346 * (V + 1.17) - 0.0314 * (V + 94.22)) = B at hB ⊢
    norm_num at a_lo a_hi b_lo b_hi ⊢
    rcases le_total V 64 with h64 | h64
    · have hd : 0 ≤ 64 - V := by linarith
      have hs : 0 ≤ 0.0314 * a - 0.0032 * b := by
        norm_num
        linarith
      have hprod := mul_nonneg hd hs
      nlinarith
    · have hd : 0 ≤ V - 64 := by linarith
      have hs : 0 ≤ 0.0032 * b - 0.0314 * a + 0.0000062 := by
        norm_num
        linarith
      have hprod := mul_nonneg hd hs
      nlinarith
  · have hA := tangent_A V 66
    have hB := tangent_B V 66
    have eA : -(0.0314 * ((66 : ℝ) + 94.22)) = -5.030908 := by norm_num
    have eB : 0.0346 * ((66 : ℝ) + 1.17) - 0.0314 * (66 + 94.22) = -2.706826 := by norm_num
    rw [eA] at hA
    rw [eB] at hB
    have a_lo := exp_neg_ge 5.030908 153.072 exp_5030908_le
    have a_hi := exp_neg_le 5.030908 153.0715 (by norm_num) exp_5030908_ge
    have b_lo := exp_neg_ge 2.706826 14.98165 exp_2706826_le
    generalize Real.exp (-5.030908) = a at hA a_lo a_hi
    generalize Real.exp (-2.706826) = b at hB b_lo
    generalize Real.exp (-(0.0314 * (V + 94.22))) = A at hA ⊢
    generalize Real.exp (0.0346 * (V + 1.17) - 0.0314 * (V + 94.22)) = B at hB ⊢
    norm_num at a_lo a_hi b_lo ⊢
    have hd : 0 ≤ V - 66 := by linarith
    have hs : 0 ≤ 0.0032 * b - 0.0314 * a := by
      norm_num
      linarith
    have hprod := mul_nonneg hd hs
    nlinarith

lemma a_inf_nonneg (V : ℝ) : 0 ≤ a_inf V := by
  unfold a_inf
  apply Real.rpow_nonneg
  have := Real.exp_pos (0.0314 * (V + 94.22))
  have := Real.exp_pos (0.0346 * (V + 1.17))
  positivity

/-- C3, as stated, fails: at `V = 70` the value `a_inf V` is above 1. -/
theorem a_inf_exceeds_one_at_70 : ¬ (0 ≤ a_inf 70 ∧ a_inf 70 ≤ 1) := by
  rintro ⟨-, h⟩
  have e1 : (0.0314 : ℝ) * (70 + 94.22) = 5.156508 := by norm_num
  have e2 : (0.0346 : ℝ) * (70 + 1.17) = 2.462482 := by norm_num
  have h1 := exp_5156508_ge
  have h2 := exp_2462482_le
  have hpos := Real.exp_pos 2.462482
  have hlt : 1 < 0.0761 * Real.exp (0.0314 * (70 + 94.22))
      / (1 + Real.exp (0.0346 * (70 + 1.17))) := by
    rw [e1, e2, lt_div_iff₀ (by linarith)]
    norm_num at h1 h2 ⊢
    linarith
  have := Real.one_lt_rpow hlt (show (0 : ℝ) < (1 : ℝ) / 3.0 by norm_num)
  unfold a_inf at h
  linarith

/-- C3, amended: for every voltage `V`, `a_inf V` lies in `[0, 1.013]`, and it
lies in `[0, 1]` for every `V ≤ 40`. -/
theorem a_inf_bounds (V : ℝ) :
    0 ≤ a_inf V ∧ a_inf V ≤ 1.013 ∧ (V ≤ 40 → a_inf V ≤ 1) :=
  ⟨a_inf_nonneg V, a_inf_le_of_bound V 1.013 (by norm_num) (factors_ge_everywhere V),
    fun hV => a_inf_le_of_bound V 1 (by norm_num) (factors_ge_below_40 V hV)⟩

/-- C3, amended, at the default initial voltage `V = -65`. -/
theorem a_inf_bounds_witness : (-65 : ℝ) ≤ 40 ∧ a_inf (-65) ≤ 1 :=
  ⟨by norm_num, (a_inf_bounds (-65)).2.2 (by norm_num)⟩

/-! ## The Euler step -/

/-- The loop of `solve` adds `dt * dydt i` to every component: `dydt` is a
separate array, so no component is affected by the update of another. -/
lemma eulerLoop_apply (dt : ℝ) (dydt y : Vec6) (i : Fin 6) :
    eulerLoop dt dydt y i = y i + dt * dydt i := by
  unfold eulerLoop
  simp only [List.foldl_cons, List.foldl_nil]
  fin_cases i <;> simp [Function.update]

/-- C4: `solve dt y` is one explicit Euler step. The model after the call is
the model `derivs` leaves behind at the pre-step state (its one assignment to
`IKA` included), with every component `y i` replaced by `y i + dt * dydt i`,
where `dydt` is the derivative vector of the pre-step state. -/
theorem solve_is_euler_step (Istim dt : ℝ) (s : Model) :
    (∀ i : Fin 6, (solve Istim dt s).y i = s.y i + dt * (derivs Istim s).1 i)
      ∧ solve Istim dt s =
          { (derivs Istim s).2 with y := fun i => s.y i + dt * (derivs Istim s).1 i } := by
  have hy : ∀ i : Fin 6, (solve Istim dt s).y i = s.y i + dt * (derivs Istim s).1 i := by
    intro i
    show eulerLoop dt (derivs Istim s).1 (derivs Istim s).2.y i = _
    rw [eulerLoop_apply]
    rfl
  refine ⟨hy, ?_⟩
  have hfun : eulerLoop dt (derivs Istim s).1 (derivs Istim s).2.y
      = fun i => s.y i + dt * (derivs Istim s).1 i := funext hy
  show ({ (derivs Istim s).2 with y := eulerLoop dt (derivs Istim s).1 (derivs Istim s).2.y }
      : Model) = _
  rw [hfun]

/-! ## The tick -/

lemma SameConfig.refl (s : Model) : SameConfig s s :=
  ⟨rfl, rfl, rfl, rfl, rfl, rfl, rfl, rfl, rfl, rfl, rfl, rfl, rfl, rfl⟩

lemma SameConfig.trans {s t u : Model} (h1 : SameConfig s t) (h2 : SameConfig t u) :
    SameConfig s u := by
  obtain ⟨a1, a2, a3, a4, a5, a6, a7, a8, a9, a10, a11, a12, a13, a14⟩ := h1
  obtain ⟨b1, b2, b3, b4, b5, b6, b7, b8, b9, b10, b11, b12, b13, b14⟩ := h2
  exact ⟨b1.trans a1, b2.trans a2, b3.trans a3, b4.trans a4, b5.trans a5, b6.trans a6,
    b7.trans a7, b8.trans a8, b9.trans a9, b10.trans a10, b11.trans a11, b12.trans a12,
    b13.trans a13, b14.trans a14⟩

/-- One call of `solve` touches `y` and `IKA` only. -/
lemma solve_frame (Istim dt : ℝ) (s : Model) :
    SameConfig s (solve Istim dt s) ∧ (solve Istim dt s).count = s.count
      ∧ (solve Istim dt s).systime = s.systime ∧ (solve Istim dt s).output0 = s.output0
      ∧ (solve Istim dt s).gui = s.gui :=
  ⟨⟨rfl, rfl, rfl, rfl, rfl, rfl, rfl, rfl, rfl, rfl, rfl, rfl, rfl, rfl⟩, rfl, rfl, rfl, rfl⟩

lemma iterate_solve_frame (Istim dt : ℝ) (k : ℕ) (s : Model) :
    SameConfig s ((solve Istim dt)^[k] s) ∧ ((solve Istim dt)^[k] s).count = s.count
      ∧ ((solve Istim dt)^[k] s).systime = s.systime
      ∧ ((solve Istim dt)^[k] s).output0 = s.output0
      ∧ ((solve Istim dt)^[k] s).gui = s.gui := by
  induction k with
  | zero => exact ⟨SameConfig.refl s, rfl, rfl, rfl, rfl⟩
  | succ k ih =>
    rw [Function.iterate_succ_apply']
    obtain ⟨h1, h2, h3, h4, h5⟩ := ih
    obtain ⟨g1, g2, g3, g4, g5⟩ := solve_frame Istim dt ((solve Istim dt)^[k] s)
    exact ⟨h1.trans g1, g2.trans h2, g3.trans h3, g4.trans h4, g5.trans h5⟩

/-- The loop body of `execute` reads `period / steps` afresh in every pass; as
`solve` changes neither, the loop is the iteration of `solve` with the step
size fixed before the loop. -/
lemma execute_loop_eq (Istim : ℝ) (k : ℕ) (s : Model) :
    (fun t : Model => solve Istim (t.period / (t.steps : ℝ)) t)^[k] s
      = (solve Istim (s.period / (s.steps : ℝ)))^[k] s := by
  induction k with
  | zero => rfl
  | succ k ih =>
    rw [Function.iterate_succ_apply', Function.iterate_succ_apply', ih]
    obtain ⟨⟨hp, hs, -⟩, -⟩ := iterate_solve_frame Istim (s.period / (s.steps : ℝ)) k s
    simp only [hp, hs]

/-- The assignment to `systime` ahead of the loop does not enter `solve`. -/
lemma solve_systime_comm (Istim dt τ : ℝ) (s : Model) :
    solve Istim dt { s with systime := τ } = { solve Istim dt s with systime := τ } :=
  rfl

lemma iterate_solve_systime_comm (Istim dt τ : ℝ) (k : ℕ) (s : Model) :
    (solve Istim dt)^[k] { s with systime := τ }
      = { (solve Istim dt)^[k] s with systime := τ } := by
  induction k with
  | zero => rfl
  | succ k ih =>
    rw [Function.iterate_succ_apply', Function.iterate_succ_apply', ih, solve_systime_comm]

/-- The model after `execute`, in closed form. -/
lemma execute_eq (Istim : ℝ) (s : Model) :
    execute Istim s =
      { (solve Istim (s.period / (s.steps : ℝ)))^[s.steps.toNat] s with
        systime := (s.count : ℝ) * s.period
        output0 := ((solve Istim (s.period / (s.steps : ℝ)))^[s.steps.toNat] s).y 0 * 1e-3
        count := ((solve Istim (s.period / (s.steps : ℝ)))^[s.steps.toNat] s).count + 1 } := by
  unfold execute
  simp only [execute_loop_eq, iterate_solve_systime_comm]

/-- C5: for a model with `steps = k ≥ 0` and the stimulus sample held fixed
during the tick, `execute` leaves the state vector equal to that of `solve`
with `dt = period / k` applied `k` times in sequence to the pre-tick model,
sets the output to the post-loop `V` times `1e-3`, increases `count` by exactly
one, and leaves the parameters, `period` and `steps` unchanged. -/
theorem execute_spec (Istim : ℝ) (s : Model) (k : ℕ) (hk : s.steps = (k : ℤ)) :
    (execute Istim s).y = ((solve Istim (s.period / (k : ℝ)))^[k] s).y
      ∧ (execute Istim s).output0 = (execute Istim s).y 0 * 1e-3
      ∧ (execute Istim s).count = s.count + 1
      ∧ SameConfig s (execute Istim s) := by
  have hcast : ((s.steps : ℤ) : ℝ) = (k : ℝ) := by rw [hk]; norm_cast
  have hnat : s.steps.toNat = k := by rw [hk]; exact Int.toNat_natCast k
  obtain ⟨hc, hcount, -⟩ := iterate_solve_frame Istim (s.period / (k : ℝ)) k s
  rw [execute_eq, hcast, hnat]
  exact ⟨rfl, rfl, by rw [← hcount], hc⟩

/-! ## Rounding to the nearest double -/

lemma roundEven_eq_of_abs_lt (y : ℝ) (m : ℤ) (h : |y - m| < 1 / 2) : roundEven y = m := by
  rw [abs_lt] at h
  unfold roundEven
  rcases le_or_lt (m : ℝ) y with hm | hm
  · have hf : ⌊y⌋ = m := by
      rw [Int.floor_eq_iff]
      constructor <;> linarith
    rw [hf, if_pos (by linarith)]
  · have hf : ⌊y⌋ = m - 1 := by
      rw [Int.floor_eq_iff]
      push_cast
      constructor <;> linarith
    rw [hf]
    push_cast
    rw [if_neg (by linarith), if_pos (by linarith)]
    ring

lemma floor_le_roundEven (y : ℝ) : ⌊y⌋ ≤ roundEven y := by
  unfold roundEven
  split_ifs <;> omega

lemma log_eq_of_bounds (x : ℝ) (e : ℤ) (hlo : (2 : ℝ) ^ e ≤ x) (hhi : x < (2 : ℝ) ^ (e + 1)) :
    Int.log 2 x = e := by
  have hx : 0 < x := lt_of_lt_of_le (by positivity) hlo
  apply le_antisymm
  · have := (Int.lt_zpow_iff_log_lt (b := 2) (by norm_num) hx).mp (by exact_mod_cast hhi)
    omega
  · exact (Int.zpow_le_iff_le_log (b := 2) (by norm_num) hx).mp (by exact_mod_cast hlo)

/-- Evaluation of `fl` from an enclosure of `|x|` between powers of two and the
nearest multiple `m` of the spacing. -/
lemma fl_eq (x : ℝ) (e m : ℤ) (he : -1022 ≤ e) (hlo : (2 : ℝ) ^ e ≤ |x|)
    (hhi : |x| < (2 : ℝ) ^ (e + 1)) (hm : |x / (2 : ℝ) ^ (e - 52) - m| < 1 / 2) :
    fl x = m * (2 : ℝ) ^ (e - 52) := by
  unfold fl
  simp only
  rw [log_eq_of_bounds |x| e hlo hhi, max_eq_left he, roundEven_eq_of_abs_lt _ m hm]

lemma fl_pos (x : ℝ) (h : (2 : ℝ) ^ (-1074 : ℤ) ≤ x) : 0 < fl x := by
  have hx : 0 < x := lt_of_lt_of_le (by positivity) h
  unfold fl
  simp only
  have hu : (0 : ℝ) < (2 : ℝ) ^ (max (Int.log 2 |x|) (-1022) - 52) := by positivity
  apply mul_pos _ hu
  have hge : (2 : ℝ) ^ (max (Int.log 2 |x|) (-1022) - 52) ≤ x := by
    rcases le_total (Int.log 2 |x|) (-1022) with hc | hc
    · rw [max_eq_right hc]
      exact h
    · rw [max_eq_left hc, abs_of_pos hx]
      have h1 : (2 : ℝ) ^ (Int.log 2 x) ≤ x := by
        exact_mod_cast Int.zpow_log_le_self (b := 2) (by norm_num) hx
      have h2 : (2 : ℝ) ^ (Int.log 2 x - 52) ≤ (2 : ℝ) ^ (Int.log 2 x) :=
        zpow_le_zpow_right₀ (by norm_num) (by omega)
      linarith
  have h1 : (1 : ℝ) ≤ x / (2 : ℝ) ^ (max (Int.log 2 |x|) (-1022) - 52) := by
    rw [le_div_iff₀ hu]
    linarith
  have h2 : (1 : ℤ) ≤ ⌊x / (2 : ℝ) ^ (max (Int.log 2 |x|) (-1022) - 52)⌋ :=
    Int.le_floor.mpr (by exact_mod_cast h1)
  have h3 := floor_le_roundEven (x / (2 : ℝ) ^ (max (Int.log 2 |x|) (-1022) - 52))
  have : (1 : ℤ) ≤ roundEven (x / (2 : ℝ) ^ (max (Int.log 2 |x|) (-1022) - 52)) := le_trans h2 h3
  have : (1 : ℝ) ≤ (roundEven (x / (2 : ℝ) ^ (max (Int.log 2 |x|) (-1022) - 52)) : ℝ) := by
    exact_mod_cast this
  linarith


/-- The double nearest to the decimal `1e-9`. -/
lemma fl_1e9 : fl (1e-9) = 4835703278458517 / 2 ^ 82 := by
  have h := fl_eq (1e-9) (-30) 4835703278458517 (by norm_num)
    (by rw [abs_of_pos (by norm_num)]; norm_num)
    (by rw [abs_of_pos (by norm_num)]; norm_num)
    (by rw [abs_lt]; constructor <;> norm_num)
  rw [h]
  norm_num

/-- The integer `1000000` is a double. -/
lemma fl_int_1000000 : fl (((1000000 : ℤ) : ℝ)) = 1000000 := by
  have h := fl_eq (((1000000 : ℤ) : ℝ)) (19) 8589934592000000 (by norm_num)
    (by rw [abs_of_pos (by norm_num)]; norm_num)
    (by rw [abs_of_pos (by norm_num)]; norm_num)
    (by rw [abs_lt]; constructor <;> norm_num)
  rw [h]
  norm_num

/-- The integer `50000` is a double. -/
lemma fl_int_50000 : fl (((50000 : ℤ) : ℝ)) = 50000 := by
  have h := fl_eq (((50000 : ℤ) : ℝ)) (15) 6871947673600000 (by norm_num)
    (by rw [abs_of_pos (by norm_num)]; norm_num)
    (by rw [abs_of_pos (by norm_num)]; norm_num)
    (by rw [abs_lt]; constructor <;> norm_num)
  rw [h]
  norm_num

/-- The integer `75000` is a double. -/
lemma fl_int_75000 : fl (((75000 : ℤ) : ℝ)) = 75000 := by
  have h := fl_eq (((75000 : ℤ) : ℝ)) (16) 5153960755200000 (by norm_num)
    (by rw [abs_of_pos (by norm_num)]; norm_num)
    (by rw [abs_of_pos (by norm_num)]; norm_num)
    (by rw [abs_lt]; constructor <;> norm_num)
  rw [h]
  norm_num

/-- The double product of `1000000` and the double nearest `1e-9`. -/
lemma fl_period_1000000 : fl (1000000 * (4835703278458517 / 2 ^ 82)) = 1152921504606847 / 2 ^ 60 := by
  have h := fl_eq (1000000 * (4835703278458517 / 2 ^ 82)) (-10) 4611686018427388 (by norm_num)
    (by rw [abs_of_pos (by norm_num)]; norm_num)
    (by rw [abs_of_pos (by norm_num)]; norm_num)
    (by rw [abs_lt]; constructor <;> norm_num)
  rw [h]
  norm_num

/-- The double product of `50000` and the double nearest `1e-9`. -/
lemma fl_period_50000 : fl (50000 * (4835703278458517 / 2 ^ 82)) = 7378697629483821 / 2 ^ 67 := by
  have h := fl_eq (50000 * (4835703278458517 / 2 ^ 82)) (-15) 7378697629483821 (by norm_num)
    (by rw [abs_of_pos (by norm_num)]; norm_num)
    (by rw [abs_of_pos (by norm_num)]; norm_num)
    (by rw [abs_lt]; constructor <;> norm_num)
  rw [h]
  norm_num

/-- The double product of `75000` and the double nearest `1e-9`. -/
lemma fl_period_75000 : fl (75000 * (4835703278458517 / 2 ^ 82)) = 2767011611056433 / 2 ^ 65 := by
  have h := fl_eq (75000 * (4835703278458517 / 2 ^ 82)) (-14) 5534023222112866 (by norm_num)
    (by rw [abs_of_pos (by norm_num)]; norm_num)
    (by rw [abs_of_pos (by norm_num)]; norm_num)
    (by rw [abs_lt]; constructor <;> norm_num)
  rw [h]
  norm_num

/-- The double product `period * rate` for a host period of `1000000` ns and a rate of `40000` Hz. -/
lemma fl_product_1000000_40000 : fl (1152921504606847 / 2 ^ 60 * 40000) = 40 := by
  have h := fl_eq (1152921504606847 / 2 ^ 60 * 40000) (5) 5629499534213120 (by norm_num)
    (by rw [abs_of_pos (by norm_num)]; norm_num)
    (by rw [abs_of_pos (by norm_num)]; norm_num)
    (by rw [abs_lt]; constructor <;> norm_num)
  rw [h]
  norm_num

/-- The double product `period * rate` for a host period of `50000` ns and a rate of `1000` Hz. -/
lemma fl_product_50000_1000 : fl (7378697629483821 / 2 ^ 67 * 1000) = 3602879701896397 / 2 ^ 56 := by
  have h := fl_eq (7378697629483821 / 2 ^ 67 * 1000) (-5) 7205759403792794 (by norm_num)
    (by rw [abs_of_pos (by norm_num)]; norm_num)
    (by rw [abs_of_pos (by norm_num)]; norm_num)
    (by rw [abs_lt]; constructor <;> norm_num)
  rw [h]
  norm_num

/-- The double product `period * rate` for a host period of `75000` ns and a rate of `40000` Hz. -/
lemma fl_product_75000_40000 : fl (2767011611056433 / 2 ^ 65 * 40000) = 6755399441055745 / 2 ^ 51 := by
  have h := fl_eq (2767011611056433 / 2 ^ 65 * 40000) (1) 6755399441055745 (by norm_num)
    (by rw [abs_of_pos (by norm_num)]; norm_num)
    (by rw [abs_of_pos (by norm_num)]; norm_num)
    (by rw [abs_lt]; constructor <;> norm_num)
  rw [h]
  norm_num

/-- The double product `period * rate` for a host period of `1000000` ns and a rate of `93000` Hz. -/
lemma fl_product_1000000_93000 : fl (1152921504606847 / 2 ^ 60 * 93000) = 93 := by
  have h := fl_eq (1152921504606847 / 2 ^ 60 * 93000) (6) 6544293208522752 (by norm_num)
    (by rw [abs_of_pos (by norm_num)]; norm_num)
    (by rw [abs_of_pos (by norm_num)]; norm_num)
    (by rw [abs_lt]; constructor <;> norm_num)
  rw [h]
  norm_num

lemma roundEven_ge (y : ℝ) : y - 1 / 2 ≤ (roundEven y : ℝ) := by
  have h1 := Int.floor_le y
  have h2 := Int.lt_floor_add_one y
  unfold roundEven
  split_ifs with a b c
  · linarith
  · push_cast
    linarith
  · linarith
  · push_cast
    linarith

/-- Rounding loses at most the relative error `2 ^ (-53)` on a number that is at
least the smallest normal double. -/
lemma fl_ge_rel (x : ℝ) (h : (2 : ℝ) ^ (-1022 : ℤ) ≤ x) :
    x * (1 - (2 : ℝ) ^ (-53 : ℤ)) ≤ fl x := by
  have hx : 0 < x := lt_of_lt_of_le (by positivity) h
  have hlog : (-1022 : ℤ) ≤ Int.log 2 x :=
    (Int.zpow_le_iff_le_log (b := 2) (by norm_num) hx).mp (by exact_mod_cast h)
  have hle : (2 : ℝ) ^ (Int.log 2 x) ≤ x := by
    exact_mod_cast Int.zpow_log_le_self (b := 2) (by norm_num) hx
  unfold fl
  simp only
  rw [abs_of_pos hx, max_eq_left hlog]
  have hu : (0 : ℝ) < (2 : ℝ) ^ (Int.log 2 x - 52) := by positivity
  have hr := roundEven_ge (x / (2 : ℝ) ^ (Int.log 2 x - 52))
  have h1 : (x / (2 : ℝ) ^ (Int.log 2 x - 52) - 1 / 2) * (2 : ℝ) ^ (Int.log 2 x - 52)
      ≤ (roundEven (x / (2 : ℝ) ^ (Int.log 2 x - 52)) : ℝ) * (2 : ℝ) ^ (Int.log 2 x - 52) :=
    mul_le_mul_of_nonneg_right hr hu.le
  have h2 : (x / (2 : ℝ) ^ (Int.log 2 x - 52) - 1 / 2) * (2 : ℝ) ^ (Int.log 2 x - 52)
      = x - (2 : ℝ) ^ (Int.log 2 x - 52) / 2 := by
    field_simp
    ring
  have h3 : (2 : ℝ) ^ (Int.log 2 x - 52) / 2 = (2 : ℝ) ^ (Int.log 2 x) * (2 : ℝ) ^ (-53 : ℤ) := by
    rw [← zpow_add₀ (by norm_num : (2 : ℝ) ≠ 0)]
    have : Int.log 2 x + -53 = (Int.log 2 x - 52) - 1 := by ring
    rw [this, zpow_sub_one₀ (by norm_num : (2 : ℝ) ≠ 0)]
    ring
  have h4 : (2 : ℝ) ^ (Int.log 2 x) * (2 : ℝ) ^ (-53 : ℤ) ≤ x * (2 : ℝ) ^ (-53 : ℤ) :=
    mul_le_mul_of_nonneg_right hle (by positivity)
  rw [h2, h3] at h1
  linarith

lemma ceil_forty : ⌈(40 : ℝ)⌉ = 40 := by
  have h : (40 : ℝ) = ((40 : ℤ) : ℝ) := by norm_num
  rw [h, Int.ceil_intCast]

lemma ceil_ninety_three : ⌈(93 : ℝ)⌉ = 93 := by
  have h : (93 : ℝ) = ((93 : ℤ) : ℝ) := by norm_num
  rw [h, Int.ceil_intCast]

lemma ceil_twentieth : ⌈(3602879701896397 / 2 ^ 56 : ℝ)⌉ = 1 := by
  rw [Int.ceil_eq_iff]
  constructor <;> norm_num

lemma ceil_three_and_an_ulp : ⌈(6755399441055745 / 2 ^ 51 : ℝ)⌉ = 4 := by
  rw [Int.ceil_eq_iff]
  constructor <;> norm_num

/-- The period the program derives from a host period of 1 ms: the double
nearest to `0.001`. -/
lemma period_1ms : fl (fl ((1000000 : ℤ) : ℝ) * fl 1e-9) = 1152921504606847 / 2 ^ 60 := by
  rw [fl_int_1000000, fl_1e9, fl_period_1000000]

/-- The period the program derives from a host period of 50 microseconds. -/
lemma period_50us : fl (fl ((50000 : ℤ) : ℝ) * fl 1e-9) = 7378697629483821 / 2 ^ 67 := by
  rw [fl_int_50000, fl_1e9, fl_period_50000]

/-- The period the program derives from a host period of 75 microseconds. -/
lemma period_75us : fl (fl ((75000 : ℤ) : ℝ) * fl 1e-9) = 2767011611056433 / 2 ^ 65 := by
  rw [fl_int_75000, fl_1e9, fl_period_75000]

/-! ## The step count -/

lemma inIntRange_40 : InIntRange 40 := ⟨by decide, by decide⟩

/-- Within the range of `int`, `static_cast<int>(ceil(x))` is the ceiling of `x`. -/
lemma static_cast_int_ceil (x : ℝ) (h : InIntRange ⌈x⌉) :
    static_cast_int (ceil x) = ⌈x⌉ := by
  unfold static_cast_int ceil
  have ht : (if (0 : ℝ) ≤ ((⌈x⌉ : ℤ) : ℝ) then ⌊((⌈x⌉ : ℤ) : ℝ)⌋ else ⌈((⌈x⌉ : ℤ) : ℝ)⌉) = ⌈x⌉ := by
    split_ifs
    · exact Int.floor_intCast _
    · exact Int.ceil_intCast _
  simp only [ht]
  exact if_pos h

/-- The result of `static_cast<int>` is a value of `int` in every case. -/
lemma static_cast_int_inRange (x : ℝ) : InIntRange (static_cast_int x) := by
  unfold static_cast_int
  simp only
  split_ifs with h0 h1 h2
  · exact h1
  · exact ⟨le_refl _, by decide⟩
  · exact h2
  · exact ⟨le_refl _, by decide⟩

lemma execute_stepsInv (Istim : ℝ) (s : Model) (h : StepsInv s) :
    StepsInv (execute Istim s) := by
  obtain ⟨hc, -⟩ := iterate_solve_frame Istim (s.period / (s.steps : ℝ)) s.steps.toNat s
  obtain ⟨hp, hs, -, -, -, -, -, -, -, -, -, -, -, hr⟩ := hc
  unfold StepsInv at h ⊢
  rw [execute_eq]
  show ((solve Istim (s.period / (s.steps : ℝ)))^[s.steps.toNat] s).steps
    = ⌈fl (((solve Istim (s.period / (s.steps : ℝ)))^[s.steps.toNat] s).period
        * ((solve Istim (s.period / (s.steps : ℝ)))^[s.steps.toNat] s).rate)⌉
  rw [hp, hs, hr, h]

/-- A host period of 1 ms at 40000 Hz: the double product is `40` and `steps` is 40. -/
lemma steps_1ms_40000 :
    static_cast_int (ceil (fl (fl (fl ((1000000 : ℤ) : ℝ) * fl 1e-9) * 40000))) = 40 := by
  rw [period_1ms, fl_product_1000000_40000,
    static_cast_int_ceil _ (by rw [ceil_forty]; exact inIntRange_40), ceil_forty]

/-- A host period of 50 microseconds at 1000 Hz: the double product is the
double nearest `0.05` and `steps` is 1. -/
lemma steps_50us_1000 :
    static_cast_int (ceil (fl (fl (fl ((50000 : ℤ) : ℝ) * fl 1e-9) * 1000))) = 1 := by
  rw [period_50us, fl_product_50000_1000,
    static_cast_int_ceil _ (by rw [ceil_twentieth]; exact ⟨by decide, by decide⟩),
    ceil_twentieth]

/-- A host period of 75 microseconds at 40000 Hz: the double product is the
double next above `3` and `steps` is 4. -/
lemma steps_75us_40000 :
    static_cast_int (ceil (fl (fl (fl ((75000 : ℤ) : ℝ) * fl 1e-9) * 40000))) = 4 := by
  rw [period_75us, fl_product_75000_40000,
    static_cast_int_ceil _ (by rw [ceil_three_and_an_ulp]; exact ⟨by decide, by decide⟩),
    ceil_three_and_an_ulp]

/-- A host period of 1 ms at 93000 Hz: the double product is `93` and `steps` is 93. -/
lemma steps_1ms_93000 :
    static_cast_int (ceil (fl (fl (fl ((1000000 : ℤ) : ℝ) * fl 1e-9) * 93000))) = 93 := by
  rw [period_1ms, fl_product_1000000_93000,
    static_cast_int_ceil _ (by rw [ceil_ninety_three]; exact ⟨by decide, by decide⟩),
    ceil_ninety_three]

lemma fresh_period : fresh.period = 1152921504606847 / 2 ^ 60 :=
  period_1ms

lemma fresh_steps : fresh.steps = 40 :=
  steps_1ms_40000

/-- C5 on the model right after construction under a host period of 1 ms, where
`steps = 40`: the tick is forty Euler steps of size `period / 40`. -/
theorem execute_spec_witness :
    fresh.steps = ((40 : ℕ) : ℤ)
      ∧ (execute 0 fresh).y = ((solve 0 (fresh.period / ((40 : ℕ) : ℝ)))^[40] fresh).y
      ∧ (execute 0 fresh).count = fresh.count + 1 :=
  ⟨fresh_steps, (execute_spec 0 fresh 40 fresh_steps).1,
    (execute_spec 0 fresh 40 fresh_steps).2.2.1⟩

/-- C6, as stated, fails: under a host period of 75000 ns and the default rate
of 40000 Hz the program leaves `steps = 4`, while
`ceil(period * rate) = ceil(75000 * 1e-9 * 40000) = 3`. The double product of
75000 and `1e-9` lies above `0.000075`, and its double product with 40000 is the
double next above 3. -/
theorem steps_differ_from_exact_ceiling :
    (update .PERIOD 75000 fresh).steps = 4
      ∧ ⌈((75000 : ℤ) : ℝ) * 1e-9 * (update .PERIOD 75000 fresh).rate⌉ = 3
      ∧ (update .PERIOD 75000 fresh).steps
        ≠ ⌈((75000 : ℤ) : ℝ) * 1e-9 * (update .PERIOD 75000 fresh).rate⌉ := by
  have h4 : (update .PERIOD 75000 fresh).steps = 4 := steps_75us_40000
  have h3 : ⌈((75000 : ℤ) : ℝ) * 1e-9 * (update .PERIOD 75000 fresh).rate⌉ = 3 := by
    show ⌈((75000 : ℤ) : ℝ) * 1e-9 * 40000⌉ = 3
    have h : ((75000 : ℤ) : ℝ) * 1e-9 * 40000 = ((3 : ℤ) : ℝ) := by norm_num
    rw [h, Int.ceil_intCast]
  refine ⟨h4, h3, ?_⟩
  rw [h4, h3]
  decide

/-- C6, amended: with `period * rate` the double product the program computes,
and whenever its ceiling is a value of `int`, `steps = ceil(period * rate)` holds
after `initParameters`, after `update(PERIOD)` (with `period` the double product
of the host period in ns and `1e-9`) and after `update(MODIFY)` (with the newly
adopted rate); `execute` and `update(INIT)` preserve it; a host period of 1 ms
(`period` the double nearest `0.001`) with rate 40000 gives `steps = 40`, and a
host period of 50 microseconds (`period` the double nearest `0.00005`) with rate
1000 gives `steps = 1`. -/
theorem steps_invariant :
    (∀ (hostPeriod : ℤ) (s : Model),
        InIntRange ⌈fl (fl (fl (hostPeriod : ℝ) * fl 1e-9) * 40000)⌉ →
        StepsInv (initParameters hostPeriod s)
          ∧ (initParameters hostPeriod s).period = fl (fl (hostPeriod : ℝ) * fl 1e-9)
          ∧ (initParameters hostPeriod s).rate = 40000)
      ∧ (∀ (hostPeriod : ℤ) (s : Model),
        InIntRange ⌈fl (fl (fl (hostPeriod : ℝ) * fl 1e-9) * s.rate)⌉ →
        StepsInv (update .PERIOD hostPeriod s)
          ∧ (update .PERIOD hostPeriod s).period = fl (fl (hostPeriod : ℝ) * fl 1e-9)
          ∧ (update .PERIOD hostPeriod s).rate = s.rate)
      ∧ (∀ (hostPeriod : ℤ) (s : Model), InIntRange ⌈fl (s.period * s.gui.rate)⌉ →
        StepsInv (update .MODIFY hostPeriod s)
          ∧ (update .MODIFY hostPeriod s).period = s.period
          ∧ (update .MODIFY hostPeriod s).rate = s.gui.rate)
      ∧ (∀ (Istim : ℝ) (s : Model), StepsInv s → StepsInv (execute Istim s))
      ∧ (∀ (hostPeriod : ℤ) (s : Model), StepsInv s → StepsInv (update .INIT hostPeriod s))
      ∧ (∀ s : Model, s.rate = 40000 →
        (update .PERIOD 1000000 s).period = 1152921504606847 / 2 ^ 60
          ∧ |(update .PERIOD 1000000 s).period - 0.001| < 1e-19
          ∧ (update .PERIOD 1000000 s).steps = 40)
      ∧ (∀ s : Model, s.rate = 1000 →
        (update .PERIOD 50000 s).period = 7378697629483821 / 2 ^ 67
          ∧ |(update .PERIOD 50000 s).period - 0.00005| < 1e-20
          ∧ (update .PERIOD 50000 s).steps = 1) := by
  refine ⟨?_, ?_, ?_, ?_, ?_, ?_, ?_⟩
  · intro hp s h
    exact ⟨static_cast_int_ceil _ h, rfl, rfl⟩
  · intro hp s h
    exact ⟨static_cast_int_ceil _ h, rfl, rfl⟩
  · intro hp s h
    exact ⟨static_cast_int_ceil _ h, rfl, rfl⟩
  · intro Istim s h
    exact execute_stepsInv Istim s h
  · intro hp s h
    exact h
  · intro s hr
    have hper : (update .PERIOD 1000000 s).period = 1152921504606847 / 2 ^ 60 := period_1ms
    refine ⟨hper, ?_, ?_⟩
    · rw [hper, abs_lt]
      constructor <;> norm_num
    · show static_cast_int (ceil (fl (fl (fl ((1000000 : ℤ) : ℝ) * fl 1e-9) * s.rate))) = 40
      rw [hr]
      exact steps_1ms_40000
  · intro s hr
    have hper : (update .PERIOD 50000 s).period = 7378697629483821 / 2 ^ 67 := period_50us
    refine ⟨hper, ?_, ?_⟩
    · rw [hper, abs_lt]
      constructor <;> norm_num
    · show static_cast_int (ceil (fl (fl (fl ((50000 : ℤ) : ℝ) * fl 1e-9) * s.rate))) = 1
      rw [hr]
      exact steps_50us_1000

/-- C6, amended, on the model right after construction under a host period of
1 ms: the double product `period * rate` is 40, a value of `int`, and the
invariant holds after `initParameters` and is kept by `update(INIT)` and by a
tick. -/
theorem steps_invariant_witness :
    InIntRange ⌈fl (fl (fl ((1000000 : ℤ) : ℝ) * fl 1e-9) * 40000)⌉
      ∧ StepsInv (initParameters 1000000 blank)
      ∧ StepsInv fresh
      ∧ StepsInv (execute 0 fresh) := by
  have hr : InIntRange ⌈fl (fl (fl ((1000000 : ℤ) : ℝ) * fl 1e-9) * 40000)⌉ := by
    rw [period_1ms, fl_product_1000000_40000, ceil_forty]
    exact inIntRange_40
  have h1 := (steps_invariant.1 1000000 blank hr).1
  have h2 := steps_invariant.2.2.2.2.1 1000000 _ h1
  exact ⟨hr, h1, h2, steps_invariant.2.2.2.1 0 _ h2⟩

/-! ## Reinitialisation of the state vector -/

lemma resetState_eq (V0 : ℝ) (y : Vec6) :
    resetState V0 y = ![V0, m_inf V0, h_inf V0, n_inf V0, a_inf V0, b_inf V0] := by
  funext i
  unfold resetState
  fin_cases i <;> rfl

/-- C7: after `update(MODIFY)` the state vector is
`(V0, m_inf V0, h_inf V0, n_inf V0, a_inf V0, b_inf V0)` for the newly adopted
`V0`, whatever the state vector was before the call; the same holds after
`initParameters` with `V0 = -65`. -/
theorem modify_resets_state_vector :
    (∀ (hostPeriod : ℤ) (s : Model),
        (update .MODIFY hostPeriod s).V0 = s.gui.V0
          ∧ (update .MODIFY hostPeriod s).y
            = ![s.gui.V0, m_inf s.gui.V0, h_inf s.gui.V0, n_inf s.gui.V0, a_inf s.gui.V0,
                b_inf s.gui.V0])
      ∧ (∀ (hostPeriod : ℤ) (s : Model) (y' : Vec6),
        (update .MODIFY hostPeriod { s with y := y' }).y = (update .MODIFY hostPeriod s).y)
      ∧ (∀ (hostPeriod : ℤ) (s : Model),
        (initParameters hostPeriod s).V0 = -65
          ∧ (initParameters hostPeriod s).y
            = ![-65, m_inf (-65), h_inf (-65), n_inf (-65), a_inf (-65), b_inf (-65)]) := by
  refine ⟨?_, ?_, ?_⟩
  · intro hp s
    exact ⟨rfl, resetState_eq _ _⟩
  · intro hp s y'
    show resetState s.gui.V0 y' = resetState s.gui.V0 s.y
    rw [resetState_eq, resetState_eq]
  · intro hp s
    exact ⟨rfl, resetState_eq _ _⟩

/-! ## The removable singularity of `alpha_m` and `alpha_n` -/

lemma exp_sub_one_ne_zero (x : ℝ) (hx : x ≠ 0) : Real.exp (x / 10.0) - 1.0 ≠ 0 := by
  have h10 : (10.0 : ℝ) = 10 := by norm_num
  have h1 : (1.0 : ℝ) = 1 := by norm_num
  rw [h10, h1]
  intro h
  have h' : Real.exp (x / 10) = 1 := by linarith
  rw [Real.exp_eq_one_iff] at h'
  apply hx
  linarith

/-- C8: `alpha_m` and `alpha_n` never divide by zero. Whenever the closed-form
branch is taken, that is `|x / y| ≥ 1e-6`, the divisor `exp (x / y) - 1` is not
zero; at the singular voltages the Taylor branch is taken, with
`alpha_m (-29.7) = 3.8` and `alpha_n (-45.7) = 0.2`. -/
theorem alpha_no_division_by_zero :
    (∀ V : ℝ, 1e-6 ≤ |(-(V + 29.7)) / 10.0| →
        alpha_m V = 0.38 * (-(V + 29.7)) / (Real.exp ((-(V + 29.7)) / 10.0) - 1.0)
          ∧ Real.exp ((-(V + 29.7)) / 10.0) - 1.0 ≠ 0)
      ∧ (∀ V : ℝ, 1e-6 ≤ |(-(V + 45.7)) / 10.0| →
        alpha_n V = 0.02 * (-(V + 45.7)) / (Real.exp ((-(V + 45.7)) / 10.0) - 1.0)
          ∧ Real.exp ((-(V + 45.7)) / 10.0) - 1.0 ≠ 0)
      ∧ alpha_m (-29.7) = 3.8 ∧ alpha_n (-45.7) = 0.2 := by
  refine ⟨?_, ?_, ?_, ?_⟩
  · intro V h
    have hx : -(V + 29.7) ≠ 0 := by
      rintro h0
      rw [h0] at h
      norm_num at h
    exact ⟨if_neg (not_lt.mpr h), exp_sub_one_ne_zero _ hx⟩
  · intro V h
    have hx : -(V + 45.7) ≠ 0 := by
      rintro h0
      rw [h0] at h
      norm_num at h
    exact ⟨if_neg (not_lt.mpr h), exp_sub_one_ne_zero _ hx⟩
  · unfold alpha_m
    norm_num
  · unfold alpha_n
    norm_num

/-- C8 at `V = 0`: both functions take the closed-form branch there and divide
by a non-zero number. -/
theorem alpha_no_division_by_zero_witness :
    (1e-6 : ℝ) ≤ |(-((0 : ℝ) + 29.7)) / 10.0|
      ∧ Real.exp ((-((0 : ℝ) + 29.7)) / 10.0) - 1.0 ≠ 0
      ∧ (1e-6 : ℝ) ≤ |(-((0 : ℝ) + 45.7)) / 10.0|
      ∧ Real.exp ((-((0 : ℝ) + 45.7)) / 10.0) - 1.0 ≠ 0 := by
  have h1 : (1e-6 : ℝ) ≤ |(-((0 : ℝ) + 29.7)) / 10.0| := by
    rw [abs_of_neg (by norm_num)]
    norm_num
  have h2 : (1e-6 : ℝ) ≤ |(-((0 : ℝ) + 45.7)) / 10.0| := by
    rw [abs_of_neg (by norm_num)]
    norm_num
  exact ⟨h1, (alpha_no_division_by_zero.1 0 h1).2, h2, (alpha_no_division_by_zero.2.1 0 h2).2⟩


/-! ## Agreement of the two branches of `alpha_m` and `alpha_n` -/

/-- The first-order Taylor value `c * (1 - u / 2)` and the closed form
`c * u / (exp u - 1)` differ by at most `1e-12` for `0 < |u| ≤ 1e-6` and
`0 ≤ c ≤ 3.8`. -/
lemma taylor_gap (c u : ℝ) (hc0 : 0 ≤ c) (hc : c ≤ 3.8) (hu0 : u ≠ 0) (hu : |u| ≤ 1e-6) :
    |c * (1 - u / 2) - c * u / (Real.exp u - 1)| ≤ 1e-12 := by
  have hb := Real.exp_bound (x := u) (le_trans hu (by norm_num)) (n := 4) (by norm_num)
  simp only [Finset.sum_range_succ, Finset.sum_range_zero, Nat.factorial] at hb
  norm_num at hb
  obtain ⟨r, hr⟩ : ∃ r, r = Real.exp u - (1 + u + u ^ 2 / 2 + u ^ 3 / 6) := ⟨_, rfl⟩
  rw [← hr] at hb
  obtain ⟨a, ha⟩ : ∃ a, a = |u| := ⟨_, rfl⟩
  rw [← ha] at hb hu
  have ha0 : 0 < a := by rw [ha]; exact abs_pos.mpr hu0
  have hD : Real.exp u - 1 = u + u ^ 2 / 2 + u ^ 3 / 6 + r := by rw [hr]; ring
  have hDne : Real.exp u - 1 ≠ 0 := by
    intro h
    have h' : Real.exp u = 1 := by linarith
    exact hu0 ((Real.exp_eq_one_iff u).mp h')
  -- powers of a
  have hu1 : (1e-6 : ℝ) = 1 / 1000000 := by norm_num
  rw [hu1] at hu
  have ha2 : a ^ 2 ≤ a / 1000000 := by nlinarith
  have ha3 : a ^ 3 ≤ a ^ 2 / 1000000 := by nlinarith [sq_nonneg a]
  have ha4 : a ^ 4 ≤ a ^ 3 / 1000000 := by nlinarith [pow_pos ha0 3]
  have ha5 : a ^ 5 ≤ a ^ 4 / 1000000 := by nlinarith [pow_pos ha0 4]
  -- atoms
  have hub := abs_le.mp (le_of_eq ha.symm)
  have hu2 : u ^ 2 = a ^ 2 := by rw [ha, sq_abs]
  have hu4 : u ^ 4 = a ^ 4 := by
    have : u ^ 4 = (u ^ 2) ^ 2 := by ring
    rw [this, hu2]; ring
  have hu3 : |u ^ 3| = a ^ 3 := by rw [abs_pow, ha]
  have hu3b := abs_le.mp (le_of_eq hu3)
  have hrb := abs_le.mp hb
  have hur : |u * r| ≤ a * (a ^ 4 * (5 / 96)) := by
    rw [abs_mul, ← ha]
    exact mul_le_mul_of_nonneg_left hb ha0.le
  have hurb := abs_le.mp hur
  -- numerator
  obtain ⟨N, hN⟩ : ∃ N, N = (1 - u / 2) * (Real.exp u - 1) - u := ⟨_, rfl⟩
  have hNeq : N = -(u ^ 3) / 12 - u ^ 4 / 12 + r - u * r / 2 := by
    rw [hN, hD]; ring
  have hNabs : |N| ≤ a ^ 3 / 12 + a ^ 4 / 12 + a ^ 4 * (5 / 96) + a * (a ^ 4 * (5 / 96)) / 2 := by
    rw [abs_le, hNeq, hu4]
    constructor <;> linarith [hu3b.1, hu3b.2, hrb.1, hrb.2, hurb.1, hurb.2]
  have hDabs : a - a ^ 2 / 2 - a ^ 3 / 6 - a ^ 4 * (5 / 96) ≤ |Real.exp u - 1| := by
    rw [hD]
    rcases le_or_lt 0 u with h | h
    · have hau : a = u := by rw [ha, abs_of_nonneg h]
      have : u ^ 3 = a ^ 3 := by rw [hau]
      have h1 : u + u ^ 2 / 2 + u ^ 3 / 6 + r ≤ |u + u ^ 2 / 2 + u ^ 3 / 6 + r| := le_abs_self _
      linarith [hrb.1]
    · have hau : a = -u := by rw [ha, abs_of_neg h]
      have : u ^ 3 = -a ^ 3 := by rw [hau]; ring
      have h1 : -(u + u ^ 2 / 2 + u ^ 3 / 6 + r) ≤ |u + u ^ 2 / 2 + u ^ 3 / 6 + r| := neg_le_abs _
      linarith [hrb.2]
  have hDpos : 0 < |Real.exp u - 1| := abs_pos.mpr hDne
  have hid : c * (1 - u / 2) - c * u / (Real.exp u - 1) = c * N / (Real.exp u - 1) := by
    rw [hN]
    field_simp
    ring
  rw [hid, abs_div, abs_mul, abs_of_nonneg hc0, div_le_iff₀ hDpos]
  have hcN : c * |N| ≤ 3.8 * |N| := mul_le_mul_of_nonneg_right hc (abs_nonneg _)
  have hfin : 3.8 * (a ^ 3 / 12 + a ^ 4 / 12 + a ^ 4 * (5 / 96) + a * (a ^ 4 * (5 / 96)) / 2)
      ≤ 1e-12 * (a - a ^ 2 / 2 - a ^ 3 / 6 - a ^ 4 * (5 / 96)) := by
    have e5 : a * (a ^ 4 * (5 / 96)) = a ^ 5 * (5 / 96) := by ring
    rw [e5]
    norm_num
    nlinarith [pow_pos ha0 2, pow_pos ha0 3, pow_pos ha0 4, pow_pos ha0 5]
  calc c * |N| ≤ 3.8 * |N| := hcN
    _ ≤ 3.8 * (a ^ 3 / 12 + a ^ 4 / 12 + a ^ 4 * (5 / 96) + a * (a ^ 4 * (5 / 96)) / 2) := by
        apply mul_le_mul_of_nonneg_left hNabs; norm_num
    _ ≤ 1e-12 * (a - a ^ 2 / 2 - a ^ 3 / 6 - a ^ 4 * (5 / 96)) := hfin
    _ ≤ 1e-12 * |Real.exp u - 1| := by
        apply mul_le_mul_of_nonneg_left hDabs; norm_num

lemma small_window (x : ℝ) : |(-x) / 10.0| = |x| / 10 := by
  rw [abs_div, abs_neg]
  norm_num

lemma alpha_m_taylor (V : ℝ) (h : |V + 29.7| < 1e-5) :
    alpha_m V = 0.38 * 10.0 * (1 - (-(V + 29.7)) / 10.0 / 2.0) := by
  unfold alpha_m
  apply if_pos
  rw [small_window]
  norm_num at h ⊢
  linarith

lemma alpha_n_taylor (V : ℝ) (h : |V + 45.7| < 1e-5) :
    alpha_n V = 0.02 * 10.0 * (1 - (-(V + 45.7)) / 10.0 / 2.0) := by
  unfold alpha_n
  apply if_pos
  rw [small_window]
  norm_num at h ⊢
  linarith

lemma alpha_m_closed (V : ℝ) (h : 1e-5 ≤ |V + 29.7|) :
    alpha_m V = 0.38 * (-(V + 29.7)) / (Real.exp ((-(V + 29.7)) / 10.0) - 1.0) := by
  unfold alpha_m
  apply if_neg
  rw [small_window]
  norm_num at h ⊢
  linarith

lemma alpha_n_closed (V : ℝ) (h : 1e-5 ≤ |V + 45.7|) :
    alpha_n V = 0.02 * (-(V + 45.7)) / (Real.exp ((-(V + 45.7)) / 10.0) - 1.0) := by
  unfold alpha_n
  apply if_neg
  rw [small_window]
  norm_num at h ⊢
  linarith

/-- The gap between the Taylor expression and the closed form of `alpha_m`,
for an offset `w = V + 29.7` with `0 < |w| ≤ 1e-5`. -/
lemma gap_m (w : ℝ) (h0 : 0 < |w|) (h1 : |w| ≤ 1e-5) :
    |0.38 * 10.0 * (1 - (-w) / 10.0 / 2.0) - 0.38 * (-w) / (Real.exp ((-w) / 10.0) - 1.0)|
      ≤ 1e-12 := by
  have hu0 : (-w) / 10 ≠ 0 := by
    have : w ≠ 0 := abs_pos.mp h0
    intro h
    apply this
    linarith
  have hu : |(-w) / 10| ≤ 1e-6 := by
    rw [abs_div, abs_neg]
    norm_num at h1 ⊢
    linarith
  have key := taylor_gap 3.8 ((-w) / 10) (by norm_num) (le_refl _) hu0 hu
  have e : 0.38 * 10.0 * (1 - (-w) / 10.0 / 2.0) - 0.38 * (-w) / (Real.exp ((-w) / 10.0) - 1.0)
      = 3.8 * (1 - (-w) / 10 / 2) - 3.8 * ((-w) / 10) / (Real.exp ((-w) / 10) - 1) := by
    norm_num
    ring
  rw [e]
  exact key

/-- The gap between the Taylor expression and the closed form of `alpha_n`,
for an offset `w = V + 45.7` with `0 < |w| ≤ 1e-5`. -/
lemma gap_n (w : ℝ) (h0 : 0 < |w|) (h1 : |w| ≤ 1e-5) :
    |0.02 * 10.0 * (1 - (-w) / 10.0 / 2.0) - 0.02 * (-w) / (Real.exp ((-w) / 10.0) - 1.0)|
      ≤ 1e-12 := by
  have hu0 : (-w) / 10 ≠ 0 := by
    have : w ≠ 0 := abs_pos.mp h0
    intro h
    apply this
    linarith
  have hu : |(-w) / 10| ≤ 1e-6 := by
    rw [abs_div, abs_neg]
    norm_num at h1 ⊢
    linarith
  have key := taylor_gap 0.2 ((-w) / 10) (by norm_num) (by norm_num) hu0 hu
  have e : 0.02 * 10.0 * (1 - (-w) / 10.0 / 2.0) - 0.02 * (-w) / (Real.exp ((-w) / 10.0) - 1.0)
      = 0.2 * (1 - (-w) / 10 / 2) - 0.2 * ((-w) / 10) / (Real.exp ((-w) / 10) - 1) := by
    norm_num
    ring
  rw [e]
  exact key

/-- C9: for every `V` with `0 < |V + 29.7| < 1e-5` the Taylor branch of
`alpha_m` is taken and its value differs from the closed form
`0.38 * x / (exp (x / 10) - 1)`, `x = -(V + 29.7)`, by at most `1e-12`; likewise
`alpha_n` for `0 < |V + 45.7| < 1e-5`. At the edge `|x / y| = 1e-6`, where the
closed form is taken, the Taylor expression is within `1e-12` of the returned
value, so the jump between the branches is at most `1e-12`. -/
theorem alpha_branches_agree :
    (∀ V : ℝ, 0 < |V + 29.7| → |V + 29.7| < 1e-5 →
        |alpha_m V - 0.38 * (-(V + 29.7)) / (Real.exp ((-(V + 29.7)) / 10) - 1)| ≤ 1e-12)
      ∧ (∀ V : ℝ, 0 < |V + 45.7| → |V + 45.7| < 1e-5 →
        |alpha_n V - 0.02 * (-(V + 45.7)) / (Real.exp ((-(V + 45.7)) / 10) - 1)| ≤ 1e-12)
      ∧ (∀ V : ℝ, |V + 29.7| = 1e-5 →
        |0.38 * 10.0 * (1 - (-(V + 29.7)) / 10.0 / 2.0) - alpha_m V| ≤ 1e-12)
      ∧ (∀ V : ℝ, |V + 45.7| = 1e-5 →
        |0.02 * 10.0 * (1 - (-(V + 45.7)) / 10.0 / 2.0) - alpha_n V| ≤ 1e-12) := by
  have h10 : (10.0 : ℝ) = 10 := by norm_num
  have h1 : (1.0 : ℝ) = 1 := by norm_num
  refine ⟨?_, ?_, ?_, ?_⟩
  · intro V h0 hlt
    have := gap_m (V + 29.7) h0 hlt.le
    rw [alpha_m_taylor V hlt]
    rw [h10, h1] at this
    rw [h10]
    exact this
  · intro V h0 hlt
    have := gap_n (V + 45.7) h0 hlt.le
    rw [alpha_n_taylor V hlt]
    rw [h10, h1] at this
    rw [h10]
    exact this
  · intro V he
    rw [alpha_m_closed V he.ge]
    exact gap_m (V + 29.7) (by rw [he]; norm_num) he.le
  · intro V he
    rw [alpha_n_closed V he.ge]
    exact gap_n (V + 45.7) (by rw [he]; norm_num) he.le

/-- C9 at `V = -29.699995`, five millionths of a millivolt above the singular
voltage of `alpha_m`. -/
theorem alpha_branches_agree_witness :
    0 < |(-29.699995 : ℝ) + 29.7| ∧ |(-29.699995 : ℝ) + 29.7| < 1e-5
      ∧ |alpha_m (-29.699995) - 0.38 * (-((-29.699995 : ℝ) + 29.7))
          / (Real.exp ((-((-29.699995 : ℝ) + 29.7)) / 10) - 1)| ≤ 1e-12 := by
  have e : (-29.699995 : ℝ) + 29.7 = 0.000005 := by norm_num
  have h0 : 0 < |(-29.699995 : ℝ) + 29.7| := by
    rw [e, abs_of_pos (by norm_num)]
    norm_num
  have h1 : |(-29.699995 : ℝ) + 29.7| < 1e-5 := by
    rw [e, abs_of_pos (by norm_num)]
    norm_num
  exact ⟨h0, h1, alpha_branches_agree.1 (-29.699995) h0 h1⟩

/-! ## The model at rest -/

/-- The five gating components of the derivative vector. -/
lemma derivs_gates (Istim : ℝ) (s : Model) :
    (derivs Istim s).1 1 = (m_inf (s.y 0) - s.y 1) / tau_m (s.y 0)
      ∧ (derivs Istim s).1 2 = (h_inf (s.y 0) - s.y 2) / tau_h (s.y 0)
      ∧ (derivs Istim s).1 3 = (n_inf (s.y 0) - s.y 3) / tau_n (s.y 0)
      ∧ (derivs Istim s).1 4 = (a_inf (s.y 0) - s.y 4) / tau_a (s.y 0)
      ∧ (derivs Istim s).1 5 = (b_inf (s.y 0) - s.y 5) / tau_b (s.y 0) :=
  ⟨rfl, rfl, rfl, rfl, rfl⟩

/-- On a state vector at rest for `V0` the gating derivatives are zero. -/
lemma derivs_gates_at_rest (Istim V0 : ℝ) (s : Model)
    (hy : s.y = ![V0, m_inf V0, h_inf V0, n_inf V0, a_inf V0, b_inf V0]) :
    (derivs Istim s).1 1 = 0 ∧ (derivs Istim s).1 2 = 0 ∧ (derivs Istim s).1 3 = 0
      ∧ (derivs Istim s).1 4 = 0 ∧ (derivs Istim s).1 5 = 0 := by
  obtain ⟨g1, g2, g3, g4, g5⟩ := derivs_gates Istim s
  have h0 : s.y 0 = V0 := by rw [hy]; rfl
  have h1 : s.y 1 = m_inf V0 := by rw [hy]; rfl
  have h2 : s.y 2 = h_inf V0 := by rw [hy]; rfl
  have h3 : s.y 3 = n_inf V0 := by rw [hy]; rfl
  have h4 : s.y 4 = a_inf V0 := by rw [hy]; rfl
  have h5 : s.y 5 = b_inf V0 := by rw [hy]; rfl
  rw [g1, g2, g3, g4, g5, h0, h1, h2, h3, h4, h5]
  simp only [sub_self, zero_div, and_self]

/-- C11: at rest the gating derivatives vanish. For every prior model, every
host period and every stimulus value, `derivs` on the state produced by
`initParameters` or by `update(MODIFY)` (`V = V0`, `X = X_inf V0`) yields
`dm = dh = dn = da = db = 0` exactly. -/
theorem gating_derivatives_vanish_at_rest (Istim : ℝ) (hostPeriod : ℤ) (s : Model) :
    ((derivs Istim (initParameters hostPeriod s)).1 1 = 0
        ∧ (derivs Istim (initParameters hostPeriod s)).1 2 = 0
        ∧ (derivs Istim (initParameters hostPeriod s)).1 3 = 0
        ∧ (derivs Istim (initParameters hostPeriod s)).1 4 = 0
        ∧ (derivs Istim (initParameters hostPeriod s)).1 5 = 0)
      ∧ ((derivs Istim (update .MODIFY hostPeriod s)).1 1 = 0
        ∧ (derivs Istim (update .MODIFY hostPeriod s)).1 2 = 0
        ∧ (derivs Istim (update .MODIFY hostPeriod s)).1 3 = 0
        ∧ (derivs Istim (update .MODIFY hostPeriod s)).1 4 = 0
        ∧ (derivs Istim (update .MODIFY hostPeriod s)).1 5 = 0) :=
  ⟨derivs_gates_at_rest Istim (-65) _ (resetState_eq _ _),
    derivs_gates_at_rest Istim s.gui.V0 _ (resetState_eq _ _)⟩

/-! ## Display units -/

/-- C13: `update(INIT)` publishes `Cm`, `G_Na_max`, `G_K_max`, `G_A_max`, `G_L`
and `Iapp` multiplied by 100 and `V0`, `E_Na`, `E_K`, `E_A`, `E_L`, `rate` as they
are; `update(MODIFY)` divides the same six by 100 on reading; so
`update(MODIFY)` applied to what `update(INIT)` published leaves all twelve
parameters unchanged. -/
theorem display_round_trip (hostPeriod hostPeriod' : ℤ) (s : Model) :
    (update .INIT hostPeriod s).gui =
        { V0 := s.V0, Cm := s.Cm * 100, G_Na_max := s.G_Na_max * 100, E_Na := s.E_Na,
          G_K_max := s.G_K_max * 100, E_K := s.E_K, G_A_max := s.G_A_max * 100, E_A := s.E_A,
          G_L := s.G_L * 100, E_L := s.E_L, Iapp := s.Iapp * 100, rate := s.rate }
      ∧ (∀ t : Model,
          (update .MODIFY hostPeriod' t).V0 = t.gui.V0
            ∧ (update .MODIFY hostPeriod' t).Cm = t.gui.Cm / 100
            ∧ (update .MODIFY hostPeriod' t).G_Na_max = t.gui.G_Na_max / 100
            ∧ (update .MODIFY hostPeriod' t).E_Na = t.gui.E_Na
            ∧ (update .MODIFY hostPeriod' t).G_K_max = t.gui.G_K_max / 100
            ∧ (update .MODIFY hostPeriod' t).E_K = t.gui.E_K
            ∧ (update .MODIFY hostPeriod' t).G_A_max = t.gui.G_A_max / 100
            ∧ (update .MODIFY hostPeriod' t).E_A = t.gui.E_A
            ∧ (update .MODIFY hostPeriod' t).G_L = t.gui.G_L / 100
            ∧ (update .MODIFY hostPeriod' t).E_L = t.gui.E_L
            ∧ (update .MODIFY hostPeriod' t).Iapp = t.gui.Iapp / 100
            ∧ (update .MODIFY hostPeriod' t).rate = t.gui.rate)
      ∧ (update .MODIFY hostPeriod' (update .INIT hostPeriod s)).V0 = s.V0
      ∧ (update .MODIFY hostPeriod' (update .INIT hostPeriod s)).Cm = s.Cm
      ∧ (update .MODIFY hostPeriod' (update .INIT hostPeriod s)).G_Na_max = s.G_Na_max
      ∧ (update .MODIFY hostPeriod' (update .INIT hostPeriod s)).E_Na = s.E_Na
      ∧ (update .MODIFY hostPeriod' (update .INIT hostPeriod s)).G_K_max = s.G_K_max
      ∧ (update .MODIFY hostPeriod' (update .INIT hostPeriod s)).E_K = s.E_K
      ∧ (update .MODIFY hostPeriod' (update .INIT hostPeriod s)).G_A_max = s.G_A_max
      ∧ (update .MODIFY hostPeriod' (update .INIT hostPeriod s)).E_A = s.E_A
      ∧ (update .MODIFY hostPeriod' (update .INIT hostPeriod s)).G_L = s.G_L
      ∧ (update .MODIFY hostPeriod' (update .INIT hostPeriod s)).E_L = s.E_L
      ∧ (update .MODIFY hostPeriod' (update .INIT hostPeriod s)).Iapp = s.Iapp
      ∧ (update .MODIFY hostPeriod' (update .INIT hostPeriod s)).rate = s.rate := by
  have key : ∀ x : ℝ, x * 100 / 100 = x := fun x => by ring
  exact ⟨rfl, fun t => ⟨rfl, rfl, rfl, rfl, rfl, rfl, rfl, rfl, rfl, rfl, rfl, rfl⟩,
    rfl, key _, key _, rfl, key _, rfl, key _, rfl, key _, rfl, key _, rfl⟩

/-! ## Time constants -/

lemma tau_m_pos (V : ℝ) : 0 < tau_m V := by
  unfold tau_m
  have := alpha_m_pos V
  have := beta_m_pos V
  positivity

lemma tau_h_pos (V : ℝ) : 0 < tau_h V := by
  unfold tau_h
  have := alpha_h_pos V
  have := beta_h_pos V
  positivity

lemma tau_n_pos (V : ℝ) : 0 < tau_n V := by
  unfold tau_n
  have := alpha_n_pos V
  have := beta_n_pos V
  positivity

lemma tau_a_gt (V : ℝ) : 0.3632e-3 < tau_a V := by
  unfold tau_a
  have := Real.exp_pos (0.0497 * (V + 55.96))
  have h : 0 < 1.158e-3 / (1 + Real.exp (0.0497 * (V + 55.96))) := by positivity
  linarith

lemma tau_b_gt (V : ℝ) : 1.24e-3 < tau_b V := by
  unfold tau_b
  have := Real.exp_pos (0.0624 * (V + 50.0))
  have h : 0 < 2.678e-3 / (1 + Real.exp (0.0624 * (V + 50.0))) := by positivity
  linarith

lemma tau_b_pos (V : ℝ) : 0 < tau_b V :=
  lt_trans (by norm_num) (tau_b_gt V)

/-- C14: the time-constant divisions in `derivs` are always defined. For every
voltage `V` the sums `alpha_m V + beta_m V`, `alpha_h V + beta_h V` and
`alpha_n V + beta_n V` are positive, and `tau_m V`, `tau_h V`, `tau_n V`,
`tau_a V`, `tau_b V` are all positive, with `tau_a V > 0.3632e-3` and
`tau_b V > 1.24e-3`. -/
theorem time_constants_positive (V : ℝ) :
    0 < alpha_m V + beta_m V ∧ 0 < alpha_h V + beta_h V ∧ 0 < alpha_n V + beta_n V
      ∧ 0 < tau_m V ∧ 0 < tau_h V ∧ 0 < tau_n V ∧ 0 < tau_a V ∧ 0 < tau_b V
      ∧ 0.3632e-3 < tau_a V ∧ 1.24e-3 < tau_b V :=
  ⟨add_pos (alpha_m_pos V) (beta_m_pos V), add_pos (alpha_h_pos V) (beta_h_pos V),
    add_pos (alpha_n_pos V) (beta_n_pos V), tau_m_pos V, tau_h_pos V, tau_n_pos V,
    lt_trans (by norm_num) (tau_a_gt V), tau_b_pos V, tau_a_gt V, tau_b_gt V⟩

/-! ## Determinism of the trajectory -/

lemma derivs_fst_congr (Istim : ℝ) {s t : Model} (h : Agree s t) :
    (derivs Istim t).1 = (derivs Istim s).1 := by
  obtain ⟨hy, -, -, -, hCm, hNa, hENa, hK, hEK, hL, hEL, hA, hEA, hI, -⟩ := h
  unfold derivs
  simp only [hy, hCm, hNa, hENa, hK, hEK, hL, hEL, hA, hEA, hI]

lemma solve_y (Istim dt : ℝ) (s : Model) :
    (solve Istim dt s).y = fun i => s.y i + dt * (derivs Istim s).1 i := by
  funext i
  show eulerLoop dt (derivs Istim s).1 (derivs Istim s).2.y i = _
  rw [eulerLoop_apply]
  rfl

lemma solve_agree (Istim dt : ℝ) {s t : Model} (h : Agree s t) :
    Agree (solve Istim dt s) (solve Istim dt t) := by
  refine ⟨?_, ?_⟩
  · rw [solve_y, solve_y, derivs_fst_congr Istim h, h.1]
  · obtain ⟨hs, -⟩ := solve_frame Istim dt s
    obtain ⟨ht, -⟩ := solve_frame Istim dt t
    obtain ⟨a1, a2, a3, a4, a5, a6, a7, a8, a9, a10, a11, a12, a13, a14⟩ := hs
    obtain ⟨b1, b2, b3, b4, b5, b6, b7, b8, b9, b10, b11, b12, b13, b14⟩ := ht
    obtain ⟨-, c1, c2, c3, c4, c5, c6, c7, c8, c9, c10, c11, c12, c13, c14⟩ := h
    exact ⟨by rw [b1, a1, c1], by rw [b2, a2, c2], by rw [b3, a3, c3], by rw [b4, a4, c4],
      by rw [b5, a5, c5], by rw [b6, a6, c6], by rw [b7, a7, c7], by rw [b8, a8, c8],
      by rw [b9, a9, c9], by rw [b10, a10, c10], by rw [b11, a11, c11], by rw [b12, a12, c12],
      by rw [b13, a13, c13], by rw [b14, a14, c14]⟩

lemma iterate_solve_agree (Istim dt : ℝ) (k : ℕ) {s t : Model} (h : Agree s t) :
    Agree ((solve Istim dt)^[k] s) ((solve Istim dt)^[k] t) := by
  induction k with
  | zero => exact h
  | succ k ih =>
    rw [Function.iterate_succ_apply', Function.iterate_succ_apply']
    exact solve_agree Istim dt ih

/-- One tick keeps two agreeing instances in agreement and gives them the same
output. -/
lemma execute_agree (Istim : ℝ) {s t : Model} (h : Agree s t) :
    Agree (execute Istim s) (execute Istim t)
      ∧ (execute Istim t).output0 = (execute Istim s).output0 := by
  have hp : t.period = s.period := h.2.1
  have hs : t.steps = s.steps := h.2.2.1
  have hit := iterate_solve_agree Istim (s.period / (s.steps : ℝ)) s.steps.toNat h
  rw [execute_eq, execute_eq, hp, hs]
  exact ⟨⟨hit.1, hit.2⟩, by
    show ((solve Istim (s.period / (s.steps : ℝ)))^[s.steps.toNat] t).y 0 * 1e-3
      = ((solve Istim (s.period / (s.steps : ℝ)))^[s.steps.toNat] s).y 0 * 1e-3
    rw [hit.1]⟩

lemma ticks_append (stims : List ℝ) (Istim : ℝ) (s : Model) :
    ticks (stims ++ [Istim]) s = execute Istim (ticks stims s) := by
  unfold ticks
  rw [List.foldl_append]
  rfl

lemma ticks_agree (stims : List ℝ) {s t : Model} (h : Agree s t) :
    Agree (ticks stims s) (ticks stims t) := by
  induction stims using List.reverseRecOn with
  | nil => exact h
  | append_singleton l a ih =>
    rw [ticks_append, ticks_append]
    exact (execute_agree a ih).1

/-- C12: the trajectory is a function of the state vector, the parameters,
`period`, `steps` and the stimulus only. Two model instances that agree on
these and receive the same stimulus sequence have the same state vector and
the same output after every tick, whatever their `count`, `systime` and `IKA`
are; `IKA` is never read by `derivs`, `solve` or `execute`. -/
theorem trajectory_deterministic (s t : Model) (h : Agree s t) (stims : List ℝ)
    (Istim : ℝ) :
    (ticks (stims ++ [Istim]) t).y = (ticks (stims ++ [Istim]) s).y
      ∧ (ticks (stims ++ [Istim]) t).output0 = (ticks (stims ++ [Istim]) s).output0
      ∧ Agree (ticks (stims ++ [Istim]) s) (ticks (stims ++ [Istim]) t) := by
  have h1 := ticks_agree stims h
  rw [ticks_append, ticks_append]
  obtain ⟨ha, ho⟩ := execute_agree Istim h1
  exact ⟨ha.1, ho, ha⟩

/-- C12 on the constructed model and a copy of it with other `count`, `systime`
and `IKA`, over three ticks with stimulus samples `0`, `1e-9`, `0`. -/
theorem trajectory_deterministic_witness :
    Agree fresh freshLater ∧ freshLater.count ≠ fresh.count
      ∧ (ticks ([0, 1e-9] ++ [0]) freshLater).y = (ticks ([0, 1e-9] ++ [0]) fresh).y
      ∧ (ticks ([0, 1e-9] ++ [0]) freshLater).output0
        = (ticks ([0, 1e-9] ++ [0]) fresh).output0 := by
  have hA : Agree fresh freshLater := ⟨rfl, SameConfig.refl fresh⟩
  have hc : freshLater.count ≠ fresh.count := by
    show (5 : ℤ) ≠ 0
    decide
  exact ⟨hA, hc, (trajectory_deterministic fresh freshLater hA [0, 1e-9] 0).1,
    (trajectory_deterministic fresh freshLater hA [0, 1e-9] 0).2.1⟩

/-! ## Gates under one Euler step -/

/-- A relaxation step `X + dt * ((Xi - X) / τ)` with `0 ≤ dt ≤ τ` is a convex
combination of `X` and `Xi`, so it stays in `[0, 1]` when both are there. -/
lemma convex_step (X Xi τ dt : ℝ) (hX : 0 ≤ X ∧ X ≤ 1) (hXi : 0 ≤ Xi ∧ Xi ≤ 1)
    (hτ : 0 < τ) (h0 : 0 ≤ dt) (h1 : dt ≤ τ) :
    0 ≤ X + dt * ((Xi - X) / τ) ∧ X + dt * ((Xi - X) / τ) ≤ 1 := by
  have hl0 : 0 ≤ dt / τ := div_nonneg h0 hτ.le
  have hl1 : dt / τ ≤ 1 := by rw [div_le_one hτ]; exact h1
  have e : X + dt * ((Xi - X) / τ) = (1 - dt / τ) * X + dt / τ * Xi := by ring
  rw [e]
  have hc : 0 ≤ 1 - dt / τ := by linarith
  constructor
  · exact add_nonneg (mul_nonneg hc hX.1) (mul_nonneg hl0 hXi.1)
  · have a1 : (1 - dt / τ) * X ≤ (1 - dt / τ) * 1 := mul_le_mul_of_nonneg_left hX.2 hc
    have a2 : dt / τ * Xi ≤ dt / τ * 1 := mul_le_mul_of_nonneg_left hXi.2 hl0
    linarith

/-- The gating components of the state vector after `solve`. -/
lemma solve_gates (Istim dt : ℝ) (s : Model) :
    (solve Istim dt s).y 1 = s.y 1 + dt * ((m_inf (s.y 0) - s.y 1) / tau_m (s.y 0))
      ∧ (solve Istim dt s).y 2 = s.y 2 + dt * ((h_inf (s.y 0) - s.y 2) / tau_h (s.y 0))
      ∧ (solve Istim dt s).y 3 = s.y 3 + dt * ((n_inf (s.y 0) - s.y 3) / tau_n (s.y 0))
      ∧ (solve Istim dt s).y 4 = s.y 4 + dt * ((a_inf (s.y 0) - s.y 4) / tau_a (s.y 0))
      ∧ (solve Istim dt s).y 5 = s.y 5 + dt * ((b_inf (s.y 0) - s.y 5) / tau_b (s.y 0)) := by
  rw [solve_y]
  exact ⟨rfl, rfl, rfl, rfl, rfl⟩

/-- C15: small Euler steps keep the Na, K and A-inactivation gates in range.
For every state with `V` arbitrary and a gate `X` among `m`, `h`, `n`, `b` in
`[0, 1]`, and every `dt` with `0 ≤ dt ≤ tau_X V`, the value of `X` after one
`solve dt y` is again in `[0, 1]`: the update is the convex combination
`(1 - dt / tau_X V) * X + dt / tau_X V * X_inf V`. -/
theorem small_step_keeps_gates_in_range (Istim dt : ℝ) (s : Model) (hdt : 0 ≤ dt) :
    ((0 ≤ s.y 1 ∧ s.y 1 ≤ 1) → dt ≤ tau_m (s.y 0) →
        0 ≤ (solve Istim dt s).y 1 ∧ (solve Istim dt s).y 1 ≤ 1)
      ∧ ((0 ≤ s.y 2 ∧ s.y 2 ≤ 1) → dt ≤ tau_h (s.y 0) →
        0 ≤ (solve Istim dt s).y 2 ∧ (solve Istim dt s).y 2 ≤ 1)
      ∧ ((0 ≤ s.y 3 ∧ s.y 3 ≤ 1) → dt ≤ tau_n (s.y 0) →
        0 ≤ (solve Istim dt s).y 3 ∧ (solve Istim dt s).y 3 ≤ 1)
      ∧ ((0 ≤ s.y 5 ∧ s.y 5 ≤ 1) → dt ≤ tau_b (s.y 0) →
        0 ≤ (solve Istim dt s).y 5 ∧ (solve Istim dt s).y 5 ≤ 1)
      ∧ (solve Istim dt s).y 1
          = (1 - dt / tau_m (s.y 0)) * s.y 1 + dt / tau_m (s.y 0) * m_inf (s.y 0)
      ∧ (solve Istim dt s).y 2
          = (1 - dt / tau_h (s.y 0)) * s.y 2 + dt / tau_h (s.y 0) * h_inf (s.y 0)
      ∧ (solve Istim dt s).y 3
          = (1 - dt / tau_n (s.y 0)) * s.y 3 + dt / tau_n (s.y 0) * n_inf (s.y 0)
      ∧ (solve Istim dt s).y 5
          = (1 - dt / tau_b (s.y 0)) * s.y 5 + dt / tau_b (s.y 0) * b_inf (s.y 0) := by
  obtain ⟨g1, g2, g3, -, g5⟩ := solve_gates Istim dt s
  have hm := m_inf_mem (s.y 0)
  have hh := h_inf_mem (s.y 0)
  have hn := n_inf_mem (s.y 0)
  refine ⟨?_, ?_, ?_, ?_, ?_, ?_, ?_, ?_⟩
  · intro hX h1
    rw [g1]
    exact convex_step _ _ _ _ hX ⟨hm.1.le, hm.2.le⟩ (tau_m_pos _) hdt h1
  · intro hX h1
    rw [g2]
    exact convex_step _ _ _ _ hX ⟨hh.1.le, hh.2.le⟩ (tau_h_pos _) hdt h1
  · intro hX h1
    rw [g3]
    exact convex_step _ _ _ _ hX ⟨hn.1.le, hn.2.le⟩ (tau_n_pos _) hdt h1
  · intro hX h1
    rw [g5]
    exact convex_step _ _ _ _ hX (b_inf_mem _) (tau_b_pos _) hdt h1
  · rw [g1]; ring
  · rw [g2]; ring
  · rw [g3]; ring
  · rw [g5]; ring

lemma alpha_m_singular : alpha_m (-29.7) = 3.8 := by
  unfold alpha_m
  norm_num

/-- At the singular voltage `tau_m` is at least `1e-3 / 19`. -/
lemma tau_m_singular_ge : 1e-5 ≤ tau_m (-29.7) := by
  unfold tau_m
  rw [alpha_m_singular]
  have hb : beta_m (-29.7) ≤ 15.2 := by
    unfold beta_m
    have : Real.exp (-0.0556 * (-29.7 + 54.7)) ≤ 1 := by
      rw [Real.exp_le_one_iff]
      norm_num
    linarith
  have hb0 := beta_m_pos (-29.7)
  rw [le_div_iff₀ (by linarith)]
  norm_num
  linarith

/-- C15 on the model `halfOpen` with `dt = 1e-5`, for the gates `m` and `b`. -/
theorem small_step_keeps_gates_in_range_witness :
    (0 : ℝ) ≤ 1e-5 ∧ (0 ≤ halfOpen.y 1 ∧ halfOpen.y 1 ≤ 1) ∧ 1e-5 ≤ tau_m (halfOpen.y 0)
      ∧ (0 ≤ (solve 0 1e-5 halfOpen).y 1 ∧ (solve 0 1e-5 halfOpen).y 1 ≤ 1)
      ∧ (0 ≤ halfOpen.y 5 ∧ halfOpen.y 5 ≤ 1) ∧ 1e-5 ≤ tau_b (halfOpen.y 0)
      ∧ (0 ≤ (solve 0 1e-5 halfOpen).y 5 ∧ (solve 0 1e-5 halfOpen).y 5 ≤ 1) := by
  have hdt : (0 : ℝ) ≤ 1e-5 := by norm_num
  have hm : 0 ≤ halfOpen.y 1 ∧ halfOpen.y 1 ≤ 1 := by
    show (0 : ℝ) ≤ 0.5 ∧ (0.5 : ℝ) ≤ 1
    constructor <;> norm_num
  have hb : 0 ≤ halfOpen.y 5 ∧ halfOpen.y 5 ≤ 1 := by
    show (0 : ℝ) ≤ 0.5 ∧ (0.5 : ℝ) ≤ 1
    constructor <;> norm_num
  have htm : 1e-5 ≤ tau_m (halfOpen.y 0) := tau_m_singular_ge
  have htb : 1e-5 ≤ tau_b (halfOpen.y 0) :=
    le_trans (by norm_num) (tau_b_gt _).le
  have key := small_step_keeps_gates_in_range 0 1e-5 halfOpen hdt
  exact ⟨hdt, hm, htm, key.1 hm htm, hb, htb, key.2.2.2.1 hb htb⟩

/-- C17: the integrator does not clamp gating variables. From the state
`(V, m, h, n, a, b) = (-29.7, 0, 1, 0, 0, 1)`, whose gates all lie in `[0, 1]`,
with the default parameters and the step size `dt = 1e-3`, one `solve` moves
the sodium activation `m` to `3.8`, outside `[0, 1]`. -/
theorem solve_does_not_clamp :
    ∃ (s : Model) (Istim dt : ℝ),
      (0 ≤ s.y 1 ∧ s.y 1 ≤ 1) ∧ (0 ≤ s.y 2 ∧ s.y 2 ≤ 1) ∧ (0 ≤ s.y 3 ∧ s.y 3 ≤ 1)
        ∧ (0 ≤ s.y 4 ∧ s.y 4 ≤ 1) ∧ (0 ≤ s.y 5 ∧ s.y 5 ≤ 1) ∧ 0 < dt
        ∧ (solve Istim dt s).y 1 = 3.8
        ∧ ¬ (0 ≤ (solve Istim dt s).y 1 ∧ (solve Istim dt s).y 1 ≤ 1) := by
  have hval : (solve 0 1e-3 closedGate).y 1 = 3.8 := by
    rw [(solve_gates 0 1e-3 closedGate).1]
    show (0 : ℝ) + 1e-3 * ((m_inf (-29.7) - 0) / tau_m (-29.7)) = 3.8
    have hab : alpha_m (-29.7) + beta_m (-29.7) ≠ 0 :=
      (add_pos (alpha_m_pos _) (beta_m_pos _)).ne'
    unfold m_inf tau_m
    rw [alpha_m_singular] at hab ⊢
    field_simp
    ring
  refine ⟨closedGate, 0, 1e-3, ?_, ?_, ?_, ?_, ?_, by norm_num, hval, ?_⟩
  · show (0 : ℝ) ≤ 0 ∧ (0 : ℝ) ≤ 1
    constructor <;> norm_num
  · show (0 : ℝ) ≤ 1 ∧ (1 : ℝ) ≤ 1
    constructor <;> norm_num
  · show (0 : ℝ) ≤ 0 ∧ (0 : ℝ) ≤ 1
    constructor <;> norm_num
  · show (0 : ℝ) ≤ 0 ∧ (0 : ℝ) ≤ 1
    constructor <;> norm_num
  · show (0 : ℝ) ≤ 1 ∧ (1 : ℝ) ≤ 1
    constructor <;> norm_num
  · rw [hval]
    rintro ⟨-, h⟩
    norm_num at h

/-! ## Sub-steps of a tick -/

/-- With `steps` the ceiling of the double product `period * rate`, and the
exact product at least the smallest normal double, the sub-steps cover the
period up to rounding. -/
lemma stepsCover_of_stepsInv (s : Model)
    (hprod : (2 : ℝ) ^ (-1022 : ℤ) ≤ s.period * s.rate) (h : StepsInv s) : StepsCover s := by
  unfold StepsInv at h
  have hsub : (2 : ℝ) ^ (-1074 : ℤ) ≤ s.period * s.rate :=
    le_trans (zpow_le_zpow_right₀ (by norm_num) (by norm_num)) hprod
  have hpos : 0 < fl (s.period * s.rate) := fl_pos _ hsub
  have hrel := fl_ge_rel _ hprod
  have hceil : fl (s.period * s.rate) ≤ ((⌈fl (s.period * s.rate)⌉ : ℤ) : ℝ) := Int.le_ceil _
  refine ⟨?_, ?_, ?_⟩
  · rw [h]
    exact Int.one_le_ceil_iff.mpr hpos
  · rw [h]
    exact hceil
  · rw [h]
    linarith

/-- C16, as stated, fails: under a host period of 1 ms with the rate set to
93000 Hz, both positive, the program takes `steps = 93`, and the sub-step size
`period / steps` is above `1 / rate`: `period` is the double nearest `0.001`,
which lies above `0.001`, and the double product `period * rate` is `93`. -/
theorem substeps_exceed_requested_step :
    0 < (update .MODIFY 1000000 (editRate 93000 fresh)).period
      ∧ 0 < (update .MODIFY 1000000 (editRate 93000 fresh)).rate
      ∧ (update .MODIFY 1000000 (editRate 93000 fresh)).steps = 93
      ∧ 1 / (update .MODIFY 1000000 (editRate 93000 fresh)).rate
        < (update .MODIFY 1000000 (editRate 93000 fresh)).period
          / ((update .MODIFY 1000000 (editRate 93000 fresh)).steps : ℝ)
      ∧ ¬ CoversPeriod (update .MODIFY 1000000 (editRate 93000 fresh)) := by
  have hp : (update .MODIFY 1000000 (editRate 93000 fresh)).period
      = 1152921504606847 / 2 ^ 60 := fresh_period
  have hr : (update .MODIFY 1000000 (editRate 93000 fresh)).rate = 93000 := rfl
  have hs : (update .MODIFY 1000000 (editRate 93000 fresh)).steps = 93 := steps_1ms_93000
  have hlt : 1 / (update .MODIFY 1000000 (editRate 93000 fresh)).rate
      < (update .MODIFY 1000000 (editRate 93000 fresh)).period
        / ((update .MODIFY 1000000 (editRate 93000 fresh)).steps : ℝ) := by
    rw [hp, hr, hs]
    norm_num
  refine ⟨by rw [hp]; norm_num, by rw [hr]; norm_num, hs, hlt, ?_⟩
  rintro ⟨-, h2, -⟩
  exact absurd h2 (not_le.mpr hlt)

/-- C16, amended: for every `period > 0` and `rate > 0` whose product is at
least the smallest normal double `2 ^ (-1022)` and whose double product has its
ceiling among the values of `int`, the `steps` derived by `update(PERIOD)`,
`update(MODIFY)` and `initParameters` is at least 1, at least the double product
`period * rate`, and at least the exact product less the relative rounding
error `2 ^ (-53)`. The exact relations `period / steps ≤ 1 / rate` and
`steps * dt = period` are not among the conclusions. -/
theorem substeps_cover_period :
    (∀ (hostPeriod : ℤ) (s : Model), 0 < fl (fl (hostPeriod : ℝ) * fl 1e-9) → 0 < s.rate →
        (2 : ℝ) ^ (-1022 : ℤ) ≤ fl (fl (hostPeriod : ℝ) * fl 1e-9) * s.rate →
        InIntRange ⌈fl (fl (fl (hostPeriod : ℝ) * fl 1e-9) * s.rate)⌉ →
        StepsCover (update .PERIOD hostPeriod s))
      ∧ (∀ (hostPeriod : ℤ) (s : Model), 0 < s.period → 0 < s.gui.rate →
        (2 : ℝ) ^ (-1022 : ℤ) ≤ s.period * s.gui.rate →
        InIntRange ⌈fl (s.period * s.gui.rate)⌉ →
        StepsCover (update .MODIFY hostPeriod s))
      ∧ (∀ (hostPeriod : ℤ) (s : Model), 0 < fl (fl (hostPeriod : ℝ) * fl 1e-9) →
        (2 : ℝ) ^ (-1022 : ℤ) ≤ fl (fl (hostPeriod : ℝ) * fl 1e-9) * 40000 →
        InIntRange ⌈fl (fl (fl (hostPeriod : ℝ) * fl 1e-9) * 40000)⌉ →
        StepsCover (initParameters hostPeriod s))
      ∧ (∀ s : Model, 0 < s.period → 0 < s.rate →
        (2 : ℝ) ^ (-1022 : ℤ) ≤ s.period * s.rate → StepsInv s → StepsCover s) := by
  refine ⟨?_, ?_, ?_, ?_⟩
  · intro hp s _ _ hprod hin
    exact stepsCover_of_stepsInv _ hprod (static_cast_int_ceil _ hin)
  · intro hp s _ _ hprod hin
    exact stepsCover_of_stepsInv _ hprod (static_cast_int_ceil _ hin)
  · intro hp s _ hprod hin
    exact stepsCover_of_stepsInv _ hprod (static_cast_int_ceil _ hin)
  · intro s _ _ hprod h
    exact stepsCover_of_stepsInv s hprod h

/-- C16, amended, at construction under a host period of 1 ms: `period` is the
double nearest `0.001`, the double product with the rate 40000 is 40, and
`steps = 40`. -/
theorem substeps_cover_period_witness :
    0 < fl (fl ((1000000 : ℤ) : ℝ) * fl 1e-9)
      ∧ (2 : ℝ) ^ (-1022 : ℤ) ≤ fl (fl ((1000000 : ℤ) : ℝ) * fl 1e-9) * 40000
      ∧ InIntRange ⌈fl (fl (fl ((1000000 : ℤ) : ℝ) * fl 1e-9) * 40000)⌉
      ∧ StepsCover (initParameters 1000000 blank) := by
  have h0 : 0 < fl (fl ((1000000 : ℤ) : ℝ) * fl 1e-9) := by
    rw [period_1ms]
    norm_num
  have h1 : (2 : ℝ) ^ (-1022 : ℤ) ≤ fl (fl ((1000000 : ℤ) : ℝ) * fl 1e-9) * 40000 := by
    rw [period_1ms]
    have hle : (2 : ℝ) ^ (-1022 : ℤ) ≤ (2 : ℝ) ^ (0 : ℤ) :=
      zpow_le_zpow_right₀ (by norm_num) (by norm_num)
    rw [zpow_zero] at hle
    refine le_trans hle ?_
    norm_num
  have hin : InIntRange ⌈fl (fl (fl ((1000000 : ℤ) : ℝ) * fl 1e-9) * 40000)⌉ := by
    rw [period_1ms, fl_product_1000000_40000, ceil_forty]
    exact inIntRange_40
  exact ⟨h0, h1, hin, substeps_cover_period.2.2.1 1000000 blank h0 h1 hin⟩

/-! ## Simulated time -/

lemma execute_systime (Istim : ℝ) (s : Model) :
    (execute Istim s).systime = (s.count : ℝ) * s.period := by
  rw [execute_eq]

lemma execute_count (Istim : ℝ) (s : Model) : (execute Istim s).count = s.count + 1 := by
  obtain ⟨-, hcount, -⟩ := iterate_solve_frame Istim (s.period / (s.steps : ℝ)) s.steps.toNat s
  rw [execute_eq]
  show ((solve Istim (s.period / (s.steps : ℝ)))^[s.steps.toNat] s).count + 1 = s.count + 1
  rw [hcount]

lemma execute_sameConfig (Istim : ℝ) (s : Model) : SameConfig s (execute Istim s) := by
  obtain ⟨hc, -⟩ := iterate_solve_frame Istim (s.period / (s.steps : ℝ)) s.steps.toNat s
  rw [execute_eq]
  exact hc

lemma update_count_systime (flag : update_flags_t) (hostPeriod : ℤ) (s : Model) :
    (update flag hostPeriod s).count = s.count
      ∧ (update flag hostPeriod s).systime = s.systime := by
  cases flag <;> exact ⟨rfl, rfl⟩

/-- As long as no tick has run since construction, `count` and `systime` are
zero. -/
lemma reach_before_first_tick {s : Model} {lp : Option ℝ} (h : Reach s lp) :
    lp = none → s.count = 0 ∧ s.systime = 0 := by
  induction h with
  | construct hp s0 => exact fun _ => ⟨rfl, rfl⟩
  | @execute Istim s lp _ _ => exact fun h0 => (by cases h0)
  | @update flag hp s lp _ ih =>
    obtain ⟨hc, hs⟩ := update_count_systime flag hp s
    rw [hc, hs]
    exact ih
  | @edit g s lp _ ih => exact ih

/-- A run of ticks adds its length to `count` and leaves `period` as it is. -/
lemma ticks_count_period (stims : List ℝ) (s : Model) :
    (ticks stims s).count = s.count + (stims.length : ℤ)
      ∧ (ticks stims s).period = s.period := by
  induction stims using List.reverseRecOn with
  | nil => exact ⟨by simp [ticks], rfl⟩
  | append_singleton l a ih =>
    rw [ticks_append, execute_count, (execute_sameConfig a (ticks l s)).1, ih.1, ih.2]
    refine ⟨?_, rfl⟩
    rw [List.length_append, List.length_singleton]
    push_cast
    ring

/-- C10, as stated, fails at the first tick: right after construction under a
host period of 1 ms, `execute` leaves `systime` at `0`, not at `0 + period`. -/
theorem first_tick_does_not_advance_systime :
    Reach fresh none ∧ (execute 0 fresh).systime ≠ fresh.systime + fresh.period := by
  refine ⟨Reach.construct 1000000 blank, ?_⟩
  have hc : fresh.count = 0 := rfl
  have hs : fresh.systime = 0 := rfl
  rw [execute_systime, hc, hs, fresh_period]
  norm_num

/-- C10, amended: `execute` sets `systime` to the pre-tick `count` times
`period`, the simulated time at which the tick starts, increases `count` by one
and leaves `period` as it is. Hence after `n + 1` ticks in a row from a model
with `count = c`, `systime` is `(c + n) * period`, and the first tick after
construction leaves `systime` at 0. No exact increment of `systime` from one
tick to the next is asserted. -/
theorem execute_sets_systime_to_tick_start :
    (∀ (Istim : ℝ) (s : Model), (execute Istim s).systime = (s.count : ℝ) * s.period)
      ∧ (∀ (Istim : ℝ) (s : Model),
        (execute Istim s).count = s.count + 1 ∧ (execute Istim s).period = s.period)
      ∧ (∀ (stims : List ℝ) (Istim : ℝ) (s : Model),
        (ticks (stims ++ [Istim]) s).systime
          = ((s.count + (stims.length : ℤ) : ℤ) : ℝ) * s.period)
      ∧ (∀ (Istim : ℝ) (s : Model), Reach s none →
        s.count = 0 ∧ s.systime = 0 ∧ (execute Istim s).systime = 0) := by
  refine ⟨execute_systime, fun Istim s => ⟨execute_count Istim s,
    (execute_sameConfig Istim s).1⟩, ?_, ?_⟩
  · intro stims Istim s
    obtain ⟨hc, hp⟩ := ticks_count_period stims s
    rw [ticks_append, execute_systime, hc, hp]
  · intro Istim s hr
    obtain ⟨hc, hs⟩ := reach_before_first_tick hr rfl
    refine ⟨hc, hs, ?_⟩
    rw [execute_systime, hc]
    norm_num

/-- C10, amended, on the model right after construction under a host period of
1 ms: the first tick leaves `systime` at 0 and the third tick sets it to
`2 * period`. -/
theorem execute_sets_systime_to_tick_start_witness :
    Reach fresh none ∧ (execute 0 fresh).systime = 0
      ∧ (ticks ([0, 0] ++ [0]) fresh).systime = 2 * fresh.period := by
  have hr : Reach fresh none := Reach.construct 1000000 blank
  refine ⟨hr, (execute_sets_systime_to_tick_start.2.2.2 0 fresh hr).2.2, ?_⟩
  rw [execute_sets_systime_to_tick_start.2.2.1 [0, 0] 0 fresh]
  have hc : fresh.count = 0 := rfl
  rw [hc]
  norm_num

end ConnorStevens
